import Mathlib

/-!
Verification of the settings-grid reconciliation engine of the
`margin-protection` repository.

The TypeScript sources are embedded shallowly:

* spreadsheet cells are `String`; a row is `List String`; a grid is a list of
  rows;
* JS plain objects used as dictionaries are association lists
  (`List (String × α)`) with in-place update (`aset`) and first-match lookup
  (`alookup`); all object-key iterations performed by the code are either
  order-insensitive or immediately re-sorted, so list order stands in for the
  JS enumeration order;
* JS sparse arrays (rows indexed by row position, with holes) are
  `List (Option row)`; a hole and an out-of-bounds read are both `none`;
* `Array.prototype.sort` (a stable sort) is modeled by `List.insertionSort`,
  which is stable;
* an out-of-bounds string read (`undefined` in JS) is normalized to `""`; the
  claims under study never distinguish the two;
* asynchronous external collaborators (`getRows`) become explicit list
  parameters, and thrown errors become `Except`/`Option` results.
-/

namespace MarginProtection

/-- A spreadsheet row: one list of string cells. -/
abbrev Row := List String

/-- A 2-D grid of string cells (rows of a sheet). -/
abbrev Grid := List Row

/-- JS plain-object property read: first binding of the key, if any. -/
def alookup {α : Type} (l : List (String × α)) (k : String) : Option α :=
  (l.find? (fun p => p.1 == k)).map (fun p => p.2)

/-- JS plain-object property write: an existing key is updated in place, a new
key is appended (JS objects keep insertion order for non-index keys). -/
def aset {α : Type} (l : List (String × α)) (k : String) (v : α) : List (String × α) :=
  if l.any (fun p => p.1 == k) then
    l.map (fun p => if p.1 == k then (k, v) else p)
  else l ++ [(k, v)]

/-- `Map.prototype.get`: with duplicate keys in the construction list the last
entry wins, hence the search from the right. -/
def mapGet {α : Type} (m : List (String × α)) (k : String) : Option α :=
  ((m.reverse).find? (fun p => p.1 == k)).map (fun p => p.2)

/-!
## SettingMap  (src/unnamed/part_000 lines 49-93, src/common/sheet_helpers.ts lines 26-45)

`map` is the backing `Map<string, P>`; `keys` is `Object.keys(values[0][1])`,
fixed at construction.  Parameter records `P` are themselves association lists
of string values.  Methods that may mutate the map return the record together
with the resulting map, so that absence of mutation is an actual statement.
-/

structure SettingMap where
  map : List (String × List (String × String))
  keys : List String
deriving DecidableEq

/-- `new SettingMap(values)`: reads `values[0][1]`, which on an empty `values`
array is a runtime `TypeError` (modeled as `none`). -/
def mkSettingMap (values : List (String × List (String × String))) : Option SettingMap :=
  match values with
  | [] => none
  | v :: _ => some { map := values, keys := v.2.map (fun p => p.1) }

/-- `SettingMap.get(id)`: returns the stored record, or lazily materializes (and
stores) a record of empty strings for every known parameter key. -/
def SettingMap.get (s : SettingMap) (id : String) :
    List (String × String) × SettingMap :=
  match mapGet s.map id with
  | some obj => (obj, s)
  | none =>
    let newObj := s.keys.map (fun k => (k, ""))
    (newObj, { s with map := aset s.map id newObj })

/-- `SettingMap.getOrDefault(id)`: per key fixed at construction,
`(key absent from id's record or empty) ? defaultRow[key] : id's value`,
normalized to `""` (the trailing `?? ''`) when both are missing.  It performs
no `set`, so the map comes back unchanged. -/
def SettingMap.getOrDefault (s : SettingMap) (id : String) :
    List (String × String) × SettingMap :=
  let defaultValue := (mapGet s.map "default").getD []
  let campaignValue := (mapGet s.map id).getD []
  (s.keys.map (fun k =>
    (k, (if alookup campaignValue k = none ∨ alookup campaignValue k = some "" then
            alookup defaultValue k
          else alookup campaignValue k).getD "")), s)

/-- `SettingMap.entries()`: every stored record's values, in stored order. -/
def SettingMap.entries (s : SettingMap) : List (String × List String) :=
  s.map.map (fun p => (p.1, p.2.map (fun q => q.2)))

/-- `SettingMap.set(id, setting)`. -/
def SettingMap.set (s : SettingMap) (id : String) (setting : List (String × String)) :
    SettingMap :=
  { s with map := aset s.map id setting }

/-!
## transformToParamValues  (part_000 lines 115-137, sheet_helpers.ts lines 66-85)
-/

/-- The slice of a rule's `ParamDefinition` that the core reads: the column
label.  Validation and formatting metadata are passed through opaquely. -/
structure ParamDefinition where
  label : String
deriving DecidableEq

/-- `transformToParamValues(rawSettings, mapper)`: throws on fewer than two
rows; otherwise each body row is keyed by its first cell and, per declared
parameter, carries the cell under the parameter's label in the header row
(a label that is not found yields a missing value, normalized here to `""`). -/
def transformToParamValues (rawSettings : Grid)
    (mapper : List (String × ParamDefinition)) : Except String SettingMap :=
  if rawSettings.length < 2 then
    .error "Expected a grid with row and column headers of at least size 2"
  else
    let headers := rawSettings.headD []
    let body := rawSettings.drop 1
    let forEachRow : Row → String × List (String × String) := fun row =>
      (row.headD "",
        mapper.map (fun p =>
          (p.1, match headers.findIdx? (fun h => h == p.2.label) with
                | some i => row.getD i ""
                | none => "")))
    match mkSettingMap (body.map forEachRow) with
    | some m => .ok m
    | none => .error "TypeError: values[0] is undefined"

/-!
## Theorems for claims C2, C10, C9
-/

theorem alookup_map_self {α : Type} (f : String → α) (keys : List String) (k : String)
    (hk : k ∈ keys) : alookup (keys.map (fun x => (x, f x))) k = some (f k) := by
  induction keys with
  | nil => cases hk
  | cons a l ih =>
    rcases List.mem_cons.mp hk with h | h
    · subst h
      simp [alookup, List.find?]
    · by_cases hak : a = k
      · subst hak
        simp [alookup, List.find?]
      · have : (a == k) = false := beq_false_of_ne hak
        simpa [alookup, List.find?, this] using ih h

/-- C2: for every `SettingMap`, id and construction-time parameter key, the
record computed by `getOrDefault` holds the default row's value for the key
exactly when the id's stored record lacks the key or stores `""` for it, and
the id's own stored value otherwise, normalized to `""` when the chosen side is
missing; and the stored state is returned unchanged (no mutation). -/
theorem settingMap_getOrDefault_spec (s : SettingMap) (id k : String)
    (hk : k ∈ s.keys) :
    alookup (s.getOrDefault id).1 k = some (
      (if alookup ((mapGet s.map id).getD []) k = none ∨
          alookup ((mapGet s.map id).getD []) k = some "" then
        alookup ((mapGet s.map "default").getD []) k
      else alookup ((mapGet s.map id).getD []) k).getD "")
    ∧ (s.getOrDefault id).2 = s := by
  constructor
  · exact alookup_map_self _ s.keys k hk
  · rfl

theorem settingMap_getOrDefault_spec_witness :
    ("p" ∈ (SettingMap.mk [("default", [("p", "d")]), ("1", [("p", "")])] ["p"]).keys) ∧
    alookup ((SettingMap.mk [("default", [("p", "d")]), ("1", [("p", "")])]
        ["p"]).getOrDefault "1").1 "p" = some "d" := by
  refine ⟨by decide, ?_⟩
  have h := settingMap_getOrDefault_spec
    (SettingMap.mk [("default", [("p", "d")]), ("1", [("p", "")])] ["p"]) "1" "p"
    (by decide)
  rw [h.1]
  decide

/-- C10: constructing a `SettingMap` from the empty sequence fails (runtime
`TypeError`), while every non-empty sequence yields a map whose key set is
exactly the first record's key set; that key set is what `get` uses to
synthesize a missing record, what `getOrDefault` enumerates, and — whenever the
records share the first record's keys, as the constructor assumes — the key
order underlying every row produced by `entries`. -/
theorem settingMap_construction (v0 : String × List (String × String))
    (vs : List (String × List (String × String)))
    (hshare : ∀ v ∈ v0 :: vs, v.2.map (fun p => p.1) = v0.2.map (fun p => p.1)) :
    mkSettingMap ([] : List (String × List (String × String))) = none
    ∧ mkSettingMap (v0 :: vs) = some ⟨v0 :: vs, v0.2.map (fun p => p.1)⟩
    ∧ (∀ id, ((SettingMap.mk (v0 :: vs) (v0.2.map (fun p => p.1))).getOrDefault id).1.map
        (fun p => p.1) = v0.2.map (fun p => p.1))
    ∧ (∀ id, mapGet (v0 :: vs) id = none →
        ((SettingMap.mk (v0 :: vs) (v0.2.map (fun p => p.1))).get id).1 =
          (v0.2.map (fun p => p.1)).map (fun k => (k, "")))
    ∧ (∀ e ∈ (SettingMap.mk (v0 :: vs) (v0.2.map (fun p => p.1))).entries,
        e.2.length = (v0.2.map (fun p => p.1)).length) := by
  refine ⟨rfl, rfl, ?_, ?_, ?_⟩
  · intro id
    simp [SettingMap.getOrDefault]
  · intro id hid
    simp [SettingMap.get, hid]
  · intro e he
    rcases List.mem_map.mp he with ⟨p, hp, rfl⟩
    have := hshare p hp
    simpa using congrArg List.length this

theorem settingMap_construction_witness :
    mkSettingMap ([] : List (String × List (String × String))) = none ∧
    mkSettingMap [("default", [("a", "x"), ("b", "y")])] =
      some ⟨[("default", [("a", "x"), ("b", "y")])], ["a", "b"]⟩ := by
  have h := settingMap_construction ("default", [("a", "x"), ("b", "y")]) []
    (by intro v hv; simp at hv; subst hv; rfl)
  exact ⟨h.1, h.2.1⟩

/-- C9 counterexample: the claim says the input-shape error is raised whenever
the grid has fewer than 2 rows or fewer than 2 columns.  The grid
`[[""], ["x"]]` has two rows but only one column, and `transformToParamValues`
succeeds on it — the column count is never checked. -/
theorem transformToParamValues_narrow_ok :
    transformToParamValues [[""], ["x"]] [] = Except.ok ⟨[("x", [])], []⟩ := by
  rfl

/-- C9 (amended): `transformToParamValues` raises its input-shape error exactly
when the grid has fewer than 2 rows; the number of columns is not checked, and
for every grid with at least 2 rows it returns a settings table. -/
theorem transformToParamValues_shape (raw : Grid)
    (mapper : List (String × ParamDefinition)) :
    (∃ m, transformToParamValues raw mapper = Except.ok m) ↔ 2 ≤ raw.length := by
  constructor
  · intro ⟨m, hm⟩
    by_contra h
    have hlt : raw.length < 2 := by omega
    simp [transformToParamValues, hlt] at hm
  · intro h
    match raw, h with
    | a :: b :: t, _ =>
      have hnlt : ¬ (a :: b :: t : Grid).length < 2 := by simp
      simp only [transformToParamValues, hnlt, if_false]
      exact ⟨_, rfl⟩

/-!
## sortMigrations  (part_000 lines 1040-1048)

`ver.split('.')` is rendered on the character list of the string, and
`Number(seg)` as decimal parsing (the claims restrict attention to
dot-delimited numeric version strings).
-/

/-- `String.prototype.split('.')` on the character list. -/
def splitDots : List Char → List (List Char)
  | [] => [[]]
  | c :: cs =>
    let r := splitDots cs
    if c = '.' then [] :: r else (c :: r.headD []) :: r.tail

/-- `Number(seg)` for a decimal-digit segment (`Number('')` is 0, matching the
empty fold). -/
def parseNum (cs : List Char) : Nat :=
  cs.foldl (fun acc c => acc * 10 + (c.toNat - 48)) 0

/-- `ver.split('.').map(Number)` as integers. -/
def parseKeys (v : String) : List ℤ :=
  (splitDots v.data).map (fun cs => (parseNum cs : ℤ))

/-- The loop of `sortMigrations`: over `i < max(len1, len2)`,
`difference += ((keys1[i] ?? 0) - (keys2[i] ?? 0)) / 10 ** i`, in exact
rational arithmetic. -/
def verDiff (k1 k2 : List ℤ) : ℚ :=
  (List.range (max k1.length k2.length)).foldl
    (fun acc i => acc + ((k1.getD i 0 - k2.getD i 0 : ℤ) : ℚ) / 10 ^ i) 0

/-- `sortMigrations(ver1, ver2)`. -/
def sortMigrations (ver1 ver2 : String) : ℚ :=
  verDiff (parseKeys ver1) (parseKeys ver2)

/-- The positional value a key list denotes under the `10 ** i` weighting:
`rank [a, b, c] = a + b/10 + c/100`.  `verDiff k1 k2 = verRank k1 - verRank k2`. -/
def verRank : List ℤ → ℚ
  | [] => 0
  | a :: k => (a : ℚ) + verRank k / 10

/-- Every entry of the key list is at most 9 in absolute value. -/
def allSmall : List ℤ → Bool
  | [] => true
  | a :: k => (a.natAbs ≤ 9 : Bool) && allSmall k

/-- Positionwise, the two key lists (zero-padded) differ by at most 9. -/
def segBounded : List ℤ → List ℤ → Bool
  | [], k2 => allSmall k2
  | a :: k1, [] => (a.natAbs ≤ 9 : Bool) && segBounded k1 []
  | a :: k1, b :: k2 => ((a - b).natAbs ≤ 9 : Bool) && segBounded k1 k2

/-- First nonzero entry is positive (the zero-padded list is positive). -/
def tailPos : List ℤ → Bool
  | [] => false
  | a :: k => if a = 0 then tailPos k else decide (0 < a)

/-- First nonzero entry is negative. -/
def tailNeg : List ℤ → Bool
  | [] => false
  | a :: k => if a = 0 then tailNeg k else decide (a < 0)

/-- All entries are zero. -/
def allZero : List ℤ → Bool
  | [] => true
  | a :: k => (a = 0 : Bool) && allZero k

/-- Lexicographic (per-segment numeric, zero-padded) strict version order: the
specification-side comparison that `sortMigrations` is claimed to realize. -/
def verLt : List ℤ → List ℤ → Bool
  | [], k2 => tailPos k2
  | a :: k1, [] => if a = 0 then verLt k1 [] else decide (a < 0)
  | a :: k1, b :: k2 => if a = b then verLt k1 k2 else decide (a < b)

/-- Zero-padded equality of key lists. -/
def verEq : List ℤ → List ℤ → Bool
  | [], k2 => allZero k2
  | a :: k1, [] => (a = 0 : Bool) && verEq k1 []
  | a :: k1, b :: k2 => (a = b : Bool) && verEq k1 k2

theorem foldl_add_fn (f : ℕ → ℚ) (l : List ℕ) (acc : ℚ) :
    l.foldl (fun a i => a + f i) acc = acc + (l.map f).sum := by
  induction l generalizing acc with
  | nil => simp
  | cons x xs ih => simp [List.foldl_cons, ih (acc + f x)]; ring

theorem sum_map_div_ten (h : ℕ → ℚ) (n : ℕ) :
    ((List.range n).map (fun i => h i / 10)).sum = ((List.range n).map h).sum / 10 := by
  induction n with
  | zero => simp
  | succ m ih => simp [List.range_succ, ih]; ring

theorem verDiff_eq_rank (k1 k2 : List ℤ) : verDiff k1 k2 = verRank k1 - verRank k2 := by
  induction k1 generalizing k2 with
  | nil =>
    induction k2 with
    | nil => simp [verDiff, verRank]
    | cons b t ihb =>
      simp only [verDiff, foldl_add_fn, zero_add] at ihb ⊢
      have hmax : max ([] : List ℤ).length (b :: t).length = t.length + 1 := by
        simp
      rw [hmax, List.range_succ_eq_map]
      simp only [List.map_cons, List.map_map, List.sum_cons]
      have hpt : ∀ i : ℕ,
          ((([] : List ℤ).getD (i + 1) 0 - (b :: t).getD (i + 1) 0 : ℤ) : ℚ) / 10 ^ (i + 1)
          = ((([] : List ℤ).getD i 0 - t.getD i 0 : ℤ) : ℚ) / 10 ^ i / 10 := by
        intro i
        simp [List.getD, pow_succ]
        ring
      have hmap : ((List.range t.length).map
            (fun i => ((([] : List ℤ).getD (i + 1) 0 - (b :: t).getD (i + 1) 0 : ℤ) : ℚ) /
              10 ^ (i + 1))).sum
          = ((List.range t.length).map
            (fun i => ((([] : List ℤ).getD i 0 - t.getD i 0 : ℤ) : ℚ) / 10 ^ i / 10)).sum := by
        congr 1
        exact List.map_congr_left (fun i _ => hpt i)
      have hcomp : ((List.range t.length).map ((fun i =>
            ((([] : List ℤ).getD i 0 - (b :: t).getD i 0 : ℤ) : ℚ) / 10 ^ i) ∘ Nat.succ)).sum
          = ((List.range t.length).map (fun i =>
            ((([] : List ℤ).getD (i + 1) 0 - (b :: t).getD (i + 1) 0 : ℤ) : ℚ) /
              10 ^ (i + 1))).sum := by
        congr 1
      have hlen : max ([] : List ℤ).length t.length = t.length := by simp
      rw [hlen] at ihb
      simp only [hcomp, hmap, sum_map_div_ten, ihb]
      simp [verRank, List.getD]
      ring
  | cons a t1 ih =>
    cases k2 with
    | nil =>
      simp only [verDiff, foldl_add_fn, zero_add] at ih ⊢
      have hmax : max (a :: t1).length ([] : List ℤ).length = t1.length + 1 := by simp
      rw [hmax, List.range_succ_eq_map]
      simp only [List.map_cons, List.map_map, List.sum_cons]
      have hpt : ∀ i : ℕ,
          (((a :: t1).getD (i + 1) 0 - ([] : List ℤ).getD (i + 1) 0 : ℤ) : ℚ) / 10 ^ (i + 1)
          = ((t1.getD i 0 - ([] : List ℤ).getD i 0 : ℤ) : ℚ) / 10 ^ i / 10 := by
        intro i
        simp [List.getD, pow_succ]
        ring
      have hcomp : ((List.range t1.length).map ((fun i =>
            (((a :: t1).getD i 0 - ([] : List ℤ).getD i 0 : ℤ) : ℚ) / 10 ^ i) ∘ Nat.succ)).sum
          = ((List.range t1.length).map (fun i =>
            ((t1.getD i 0 - ([] : List ℤ).getD i 0 : ℤ) : ℚ) / 10 ^ i / 10)).sum := by
        congr 1
        exact List.map_congr_left (fun i _ => hpt i)
      have ih2 := ih []
      have hlen : max t1.length ([] : List ℤ).length = t1.length := by simp
      rw [hlen] at ih2
      simp only [hcomp, sum_map_div_ten, ih2]
      simp [verRank, List.getD]
    | cons b t2 =>
      simp only [verDiff, foldl_add_fn, zero_add] at ih ⊢
      have hmax : max (a :: t1).length (b :: t2).length = max t1.length t2.length + 1 := by
        simp [Nat.succ_max_succ]
      rw [hmax, List.range_succ_eq_map]
      simp only [List.map_cons, List.map_map, List.sum_cons]
      have hpt : ∀ i : ℕ,
          (((a :: t1).getD (i + 1) 0 - (b :: t2).getD (i + 1) 0 : ℤ) : ℚ) / 10 ^ (i + 1)
          = ((t1.getD i 0 - t2.getD i 0 : ℤ) : ℚ) / 10 ^ i / 10 := by
        intro i
        simp [List.getD, pow_succ]
        ring
      have hcomp : ((List.range (max t1.length t2.length)).map ((fun i =>
            (((a :: t1).getD i 0 - (b :: t2).getD i 0 : ℤ) : ℚ) / 10 ^ i) ∘ Nat.succ)).sum
          = ((List.range (max t1.length t2.length)).map (fun i =>
            ((t1.getD i 0 - t2.getD i 0 : ℤ) : ℚ) / 10 ^ i / 10)).sum := by
        congr 1
        exact List.map_congr_left (fun i _ => hpt i)
      simp only [hcomp, sum_map_div_ten, ih t2]
      simp [verRank, List.getD]
      ring

theorem verRank_bound (k : List ℤ) (h : allSmall k = true) : |verRank k| < 10 := by
  induction k with
  | nil => simp [verRank]
  | cons a t ih =>
    simp only [allSmall, Bool.and_eq_true, decide_eq_true_eq] at h
    have hz : |a| ≤ (9 : ℤ) := by rw [Int.abs_eq_natAbs]; exact_mod_cast h.1
    have ha : |(a : ℚ)| ≤ 9 := by rw [← Int.cast_abs]; exact_mod_cast hz
    have ht := ih h.2
    calc |verRank (a :: t)| = |(a : ℚ) + verRank t / 10| := rfl
      _ ≤ |(a : ℚ)| + |verRank t / 10| := abs_add _ _
      _ = |(a : ℚ)| + |verRank t| / 10 := by rw [abs_div]; norm_num
      _ < 10 := by linarith

theorem abs_div_ten_lt_one {q : ℚ} (h : |q| < 10) : |q / 10| < 1 := by
  rw [abs_div]
  have : |(10 : ℚ)| = 10 := by norm_num
  rw [this]
  linarith

theorem rank_sign (k : List ℤ) (h : allSmall k = true) :
    (verRank k < 0 ↔ tailNeg k = true) ∧ (verRank k = 0 ↔ allZero k = true) ∧
    (0 < verRank k ↔ tailPos k = true) := by
  induction k with
  | nil => simp [verRank, tailNeg, allZero, tailPos]
  | cons a t ih =>
    simp only [allSmall, Bool.and_eq_true, decide_eq_true_eq] at h
    have ht := ih h.2
    have habs : |verRank t / 10| < 1 := abs_div_ten_lt_one (verRank_bound t h.2)
    have hlo : -1 < verRank t / 10 := (abs_lt.mp habs).1
    have hhi : verRank t / 10 < 1 := (abs_lt.mp habs).2
    have hval : verRank (a :: t) = (a : ℚ) + verRank t / 10 := rfl
    by_cases ha : a = 0
    · subst ha
      have e1 : tailNeg ((0 : ℤ) :: t) = tailNeg t := by simp [tailNeg]
      have e2 : allZero ((0 : ℤ) :: t) = allZero t := by simp [allZero]
      have e3 : tailPos ((0 : ℤ) :: t) = tailPos t := by simp [tailPos]
      have hval0 : verRank ((0 : ℤ) :: t) = verRank t / 10 := by
        rw [hval]; norm_num
      rw [hval0, e1, e2, e3]
      refine ⟨?_, ?_, ?_⟩
      · rw [← ht.1]; constructor <;> intro <;> linarith
      · rw [← ht.2.1]; constructor <;> intro <;> linarith
      · rw [← ht.2.2]; constructor <;> intro <;> linarith
    · rcases lt_or_gt_of_ne ha with hneg | hpos
      · have hale : a ≤ -1 := by omega
        have haq : (a : ℚ) ≤ -1 := by exact_mod_cast hale
        have hlt0 : verRank (a :: t) < 0 := by rw [hval]; linarith
        simp only [tailNeg, tailPos, allZero, if_neg ha, hneg, decide_eq_true_eq]
        refine ⟨?_, ?_, ?_⟩
        · simpa using hlt0
        · constructor
          · intro h0; exact absurd h0 (by linarith)
          · intro h0
            simp only [Bool.and_eq_true, decide_eq_true_eq] at h0
            exact absurd h0.1 ha
        · constructor
          · intro h0; linarith
          · intro h0; exact absurd hneg (by linarith)
      · have hage : 1 ≤ a := by omega
        have haq : (1 : ℚ) ≤ (a : ℚ) := by exact_mod_cast hage
        have hgt0 : 0 < verRank (a :: t) := by rw [hval]; linarith
        simp only [tailNeg, tailPos, allZero, if_neg ha, decide_eq_true_eq]
        refine ⟨?_, ?_, ?_⟩
        · constructor
          · intro h0; linarith
          · intro h0; exact absurd h0 (by omega)
        · constructor
          · intro h0; exact absurd h0 (by linarith)
          · intro h0
            simp only [Bool.and_eq_true, decide_eq_true_eq] at h0
            exact absurd h0.1 ha
        · exact iff_of_true hgt0 hpos

theorem segBounded_nil (k : List ℤ) : segBounded k [] = allSmall k := by
  induction k with
  | nil => rfl
  | cons a t ih => simp [segBounded, allSmall, ih]

theorem verLt_nil (k : List ℤ) : verLt k [] = tailNeg k := by
  induction k with
  | nil => rfl
  | cons a t ih => simp [verLt, tailNeg, ih]

theorem verEq_nil (k : List ℤ) : verEq k [] = allZero k := by
  induction k with
  | nil => rfl
  | cons a t ih => simp [verEq, allZero, ih]

theorem rankDiff_bound (k1 k2 : List ℤ) (h : segBounded k1 k2 = true) :
    |verRank k1 - verRank k2| < 10 := by
  induction k1 generalizing k2 with
  | nil =>
    have := verRank_bound k2 h
    simpa [verRank] using (abs_neg (verRank k2) ▸ this)
  | cons a t1 ih =>
    cases k2 with
    | nil =>
      rw [segBounded_nil] at h
      simpa [verRank] using verRank_bound (a :: t1) h
    | cons b t2 =>
      simp only [segBounded, Bool.and_eq_true, decide_eq_true_eq] at h
      have hz : |a - b| ≤ (9 : ℤ) := by rw [Int.abs_eq_natAbs]; exact_mod_cast h.1
      have hab : |(a : ℚ) - b| ≤ 9 := by
        have hq : |((a - b : ℤ) : ℚ)| ≤ 9 := by
          rw [← Int.cast_abs]
          exact_mod_cast hz
        push_cast at hq
        exact hq
      have ht := ih t2 h.2
      have hd : |(verRank t1 - verRank t2) / 10| < 1 := abs_div_ten_lt_one ht
      have hval : verRank (a :: t1) - verRank (b :: t2)
          = ((a : ℚ) - b) + (verRank t1 - verRank t2) / 10 := by
        simp [verRank]; ring
      rw [hval]
      calc |((a : ℚ) - b) + (verRank t1 - verRank t2) / 10|
          ≤ |(a : ℚ) - b| + |(verRank t1 - verRank t2) / 10| := abs_add _ _
        _ < 9 + 1 := add_lt_add_of_le_of_lt hab hd
        _ = 10 := by norm_num

theorem verDiff_sign (k1 k2 : List ℤ) (h : segBounded k1 k2 = true) :
    (verDiff k1 k2 < 0 ↔ verLt k1 k2 = true) ∧
    (verDiff k1 k2 = 0 ↔ verEq k1 k2 = true) ∧
    (0 < verDiff k1 k2 ↔ verLt k2 k1 = true) := by
  rw [verDiff_eq_rank]
  induction k1 generalizing k2 with
  | nil =>
    have hs := rank_sign k2 h
    have hval : verRank ([] : List ℤ) - verRank k2 = -verRank k2 := by simp [verRank]
    rw [hval]
    refine ⟨?_, ?_, ?_⟩
    · show -verRank k2 < 0 ↔ tailPos k2 = true
      rw [← hs.2.2]; constructor <;> intro <;> linarith
    · show -verRank k2 = 0 ↔ allZero k2 = true
      rw [← hs.2.1]; constructor <;> intro <;> linarith
    · rw [verLt_nil, ← hs.1]; constructor <;> intro <;> linarith
  | cons a t1 ih =>
    cases k2 with
    | nil =>
      rw [segBounded_nil] at h
      have hs := rank_sign (a :: t1) h
      have hval : verRank (a :: t1) - verRank ([] : List ℤ) = verRank (a :: t1) := by
        simp [verRank]
      rw [hval, verLt_nil, verEq_nil]
      exact ⟨hs.1, hs.2.1, hs.2.2⟩
    | cons b t2 =>
      simp only [segBounded, Bool.and_eq_true, decide_eq_true_eq] at h
      have ht := ih t2 h.2
      have hbd := rankDiff_bound t1 t2 h.2
      have habs : |(verRank t1 - verRank t2) / 10| < 1 := abs_div_ten_lt_one hbd
      have hlo := (abs_lt.mp habs).1
      have hhi := (abs_lt.mp habs).2
      have hval : verRank (a :: t1) - verRank (b :: t2)
          = ((a : ℚ) - b) + (verRank t1 - verRank t2) / 10 := by
        simp [verRank]; ring
      rw [hval]
      by_cases hab : a = b
      · subst hab
        have hv1 : verLt (a :: t1) (a :: t2) = verLt t1 t2 := by simp [verLt]
        have hv2 : verEq (a :: t1) (a :: t2) = verEq t1 t2 := by simp [verEq]
        have hv3 : verLt (a :: t2) (a :: t1) = verLt t2 t1 := by simp [verLt]
        rw [hv1, hv2, hv3, sub_self, zero_add]
        refine ⟨?_, ?_, ?_⟩
        · rw [← ht.1]; constructor <;> intro <;> linarith
        · rw [← ht.2.1]; constructor <;> intro <;> linarith
        · rw [← ht.2.2]; constructor <;> intro <;> linarith
      · have hv1 : verLt (a :: t1) (b :: t2) = decide (a < b) := by simp [verLt, hab]
        have hv2 : verEq (a :: t1) (b :: t2) = false := by simp [verEq, hab]
        have hv3 : verLt (b :: t2) (a :: t1) = decide (b < a) := by
          simp [verLt, Ne.symm hab]
        rw [hv1, hv2, hv3]
        rcases lt_or_gt_of_ne hab with hlt | hgt
        · have hle : a - b ≤ -1 := by omega
          have hleq : (a : ℚ) - b ≤ -1 := by
            have : ((a - b : ℤ) : ℚ) ≤ ((-1 : ℤ) : ℚ) := by exact_mod_cast hle
            push_cast at this
            linarith
          have hneg : ((a : ℚ) - b) + (verRank t1 - verRank t2) / 10 < 0 := by linarith
          refine ⟨?_, ?_, ?_⟩
          · simp [hneg, hlt]
          · constructor
            · intro h0; exact absurd h0 (by linarith)
            · intro h0; exact absurd h0 (by decide)
          · simp only [decide_eq_true_eq]
            constructor
            · intro h0; linarith
            · intro h0; exact absurd hlt (by omega)
        · have hge : 1 ≤ a - b := by omega
          have hgeq : (1 : ℚ) ≤ (a : ℚ) - b := by
            have : ((1 : ℤ) : ℚ) ≤ ((a - b : ℤ) : ℚ) := by exact_mod_cast hge
            push_cast at this
            linarith
          have hpos : 0 < ((a : ℚ) - b) + (verRank t1 - verRank t2) / 10 := by linarith
          refine ⟨?_, ?_, ?_⟩
          · simp only [decide_eq_true_eq]
            constructor
            · intro h0; linarith
            · intro h0; exact absurd hgt (by omega)
          · constructor
            · intro h0; exact absurd h0 (by linarith)
            · intro h0; exact absurd h0 (by decide)
          · simp [hpos, hgt]

/-- C8 (amended): for dot-delimited numeric version strings whose zero-padded
segments differ pairwise by at most 9 in absolute value, the sign of
`sortMigrations(v1, v2)` matches per-segment numeric (lexicographic) version
comparison: negative exactly when `v1` precedes `v2`, zero exactly when the
padded segment lists agree, positive exactly when `v1` follows `v2`.  Without
the bound a later segment can overpower an earlier one (see the
counterexample). -/
theorem sortMigrations_sign (v1 v2 : String)
    (h : segBounded (parseKeys v1) (parseKeys v2) = true) :
    (sortMigrations v1 v2 < 0 ↔ verLt (parseKeys v1) (parseKeys v2) = true) ∧
    (sortMigrations v1 v2 = 0 ↔ verEq (parseKeys v1) (parseKeys v2) = true) ∧
    (0 < sortMigrations v1 v2 ↔ verLt (parseKeys v2) (parseKeys v1) = true) :=
  verDiff_sign (parseKeys v1) (parseKeys v2) h

theorem sortMigrations_sign_witness :
    segBounded (parseKeys "1.2.0") (parseKeys "1.10.0") = true ∧
    sortMigrations "1.2.0" "1.10.0" < 0 := by
  refine ⟨by decide, ?_⟩
  exact (sortMigrations_sign "1.2.0" "1.10.0" (by decide)).1.mpr (by decide)

/-- C8 counterexample: the claim, as stated for every pair of dot-delimited
numeric version strings, demands `sortMigrations(v1, v2) > 0` whenever `v1`
follows `v2` in per-segment numeric order.  For `v1 = "1.0"`, `v2 = "0.20"`,
version order says `1.0 > 0.20`, yet the weighted sum is
`(1 - 0) + (0 - 20)/10 = -1 < 0`. -/
theorem sortMigrations_cex :
    sortMigrations "1.0" "0.20" < 0 ∧
    verLt (parseKeys "0.20") (parseKeys "1.0") = true := by
  constructor
  · show verDiff (parseKeys "1.0") (parseKeys "0.20") < 0
    have h1 : parseKeys "1.0" = [1, 0] := by decide
    have h2 : parseKeys "0.20" = [0, 20] := by decide
    rw [h1, h2, verDiff_eq_rank]
    simp [verRank]
    norm_num
  · decide

/-!
## AppsScriptFrontEnd.migrate  (part_000 lines 799-830)

The property store is reduced to the one property the method touches
(`sheet_version`): `stored` is its value on entry (`none` when unset), and the
output records the invoked migration versions in call order, the successive
values written to the property, and the returned count.  Each invoked version
is persisted immediately after its callback returns, which is why `writes`
interleaves exactly with `invoked`.
-/

/-- The comparator order `sortMigrations(a, b) <= 0` used by
`Object.entries(migrations).sort(...)`. -/
def migLe (a b : String) : Prop := sortMigrations a b ≤ 0

instance : DecidableRel migLe := fun a b =>
  inferInstanceAs (Decidable (sortMigrations a b ≤ 0))

theorem sortMigrations_as_rank (a b : String) :
    sortMigrations a b = verRank (parseKeys a) - verRank (parseKeys b) :=
  verDiff_eq_rank _ _

instance : IsTotal String migLe :=
  ⟨fun a b => by
    unfold migLe
    rw [sortMigrations_as_rank, sortMigrations_as_rank]
    rcases le_total (verRank (parseKeys a)) (verRank (parseKeys b)) with h | h
    · left; linarith
    · right; linarith⟩

instance : IsTrans String migLe :=
  ⟨fun a b c hab hbc => by
    unfold migLe at hab hbc ⊢
    rw [sortMigrations_as_rank] at hab hbc ⊢
    linarith⟩

/-- Outcome of one `migrate()` call. -/
structure MigrateOut where
  invoked : List String
  writes : List String
  count : Nat
deriving DecidableEq

/-- The for-loop of `migrate`: walk the sorted entries; break at the first
version with `sortMigrations(version, targetVersion) >= 0`; invoke (and
persist) every remaining version with `sortMigrations(version, sheetVersion) > 0`. -/
def migrateLoop (targetVersion sheetVersion : String) : List String → List String
  | [] => []
  | v :: rest =>
    if 0 ≤ sortMigrations v targetVersion then []
    else if 0 < sortMigrations v sheetVersion then
      v :: migrateLoop targetVersion sheetVersion rest
    else migrateLoop targetVersion sheetVersion rest

/-- `migrate()`: `sheetVersion := getProperty('sheet_version') ?? '0'`; an empty
stored string triggers the initial `setProperty(version)`; the migration table
is sorted by `sortMigrations` and walked by `migrateLoop`; finally the target
version is persisted whenever the entry version differs from it. -/
def migrate (migrations : List String) (targetVersion : String)
    (stored : Option String) : MigrateOut :=
  let sheetVersion := stored.getD "0"
  let sorted := List.insertionSort migLe migrations
  let invoked := migrateLoop targetVersion sheetVersion sorted
  { invoked := invoked
    writes := (if sheetVersion = "" then [targetVersion] else []) ++ invoked ++
      (if sheetVersion ≠ targetVersion then [targetVersion] else [])
    count := invoked.length }

theorem migrateLoop_eq_filter (targetVersion sheetVersion : String) (l : List String)
    (hs : l.Sorted migLe) :
    migrateLoop targetVersion sheetVersion l =
      l.filter (fun v => decide (sortMigrations v targetVersion < 0) &&
        decide (0 < sortMigrations v sheetVersion)) := by
  induction l with
  | nil => rfl
  | cons v rest ih =>
    have hall : ∀ b ∈ rest, migLe v b := (List.sorted_cons.mp hs).1
    have hrest : rest.Sorted migLe := (List.sorted_cons.mp hs).2
    by_cases h1 : 0 ≤ sortMigrations v targetVersion
    · have hrest0 : rest.filter (fun v => decide (sortMigrations v targetVersion < 0) &&
          decide (0 < sortMigrations v sheetVersion)) = [] := by
        rw [List.filter_eq_nil_iff]
        intro b hb
        have hvb := hall b hb
        unfold migLe at hvb
        rw [sortMigrations_as_rank] at hvb h1
        have : ¬ sortMigrations b targetVersion < 0 := by
          rw [sortMigrations_as_rank]
          linarith
        simp [this]
      rw [List.filter_cons]
      have hvfalse : ¬ sortMigrations v targetVersion < 0 := not_lt.mpr h1
      simp [migrateLoop, h1, hvfalse, hrest0]
    · push_neg at h1
      by_cases h2 : 0 < sortMigrations v sheetVersion
      · rw [List.filter_cons]
        simp [migrateLoop, not_le.mpr h1, h1, h2, ih hrest]
      · rw [List.filter_cons]
        simp [migrateLoop, not_le.mpr h1, h1, h2, ih hrest]

/-- C7 (amended): `migrate()` invokes exactly the migrations whose version is
strictly greater than the persisted current version and strictly less than the
target version (a migration whose version equals the target is not invoked),
in ascending `sortMigrations` order, and each invocation is immediately
followed by persisting that migration's version — the write trace is the
invocation sequence itself, preceded by the empty-stored-version initial write
and followed by the final write of the target version when the entry version
differs from it. -/
theorem migrate_spec (migrations : List String) (targetVersion : String)
    (stored : Option String) :
    ((migrate migrations targetVersion stored).invoked).Perm
      (migrations.filter (fun v => decide (sortMigrations v targetVersion < 0) &&
        decide (0 < sortMigrations v (stored.getD "0"))))
    ∧ (migrate migrations targetVersion stored).invoked.Sorted migLe
    ∧ (migrate migrations targetVersion stored).writes =
        (if stored.getD "0" = "" then [targetVersion] else []) ++
        (migrate migrations targetVersion stored).invoked ++
        (if stored.getD "0" ≠ targetVersion then [targetVersion] else [])
    ∧ (migrate migrations targetVersion stored).count =
        (migrate migrations targetVersion stored).invoked.length := by
  have hsorted : (List.insertionSort migLe migrations).Sorted migLe :=
    List.sorted_insertionSort migLe migrations
  have hloop := migrateLoop_eq_filter targetVersion (stored.getD "0")
    (List.insertionSort migLe migrations) hsorted
  refine ⟨?_, ?_, rfl, rfl⟩
  · show (migrateLoop targetVersion (stored.getD "0")
        (List.insertionSort migLe migrations)).Perm _
    rw [hloop]
    exact (List.perm_insertionSort migLe migrations).filter _
  · show (migrateLoop targetVersion (stored.getD "0")
        (List.insertionSort migLe migrations)).Sorted migLe
    rw [hloop]
    exact List.Pairwise.filter _ hsorted

/-- C7 counterexample: one registered migration of version "1", target version
"1", persisted version "0".  The claim (invoke every migration with
`current < version <= target`) demands this migration run, since
`sortMigrations("1","0") > 0` and `"1"` equals the target; but the loop breaks
as soon as `sortMigrations(version, target) >= 0`, so nothing is invoked. -/
theorem migrate_cex :
    (migrate ["1"] "1" (some "0")).invoked = [] ∧
    0 < sortMigrations "1" "0" ∧ sortMigrations "1" "1" = 0 := by
  have h11 : sortMigrations "1" "1" = 0 := by
    rw [sortMigrations_as_rank]
    exact sub_self _
  have h10 : sortMigrations "1" "0" = 1 := by
    rw [sortMigrations_as_rank]
    have e1 : parseKeys "1" = [1] := by decide
    have e0 : parseKeys "0" = [0] := by decide
    rw [e1, e0]
    simp [verRank]
  refine ⟨?_, by rw [h10]; norm_num, h11⟩
  simp [migrate, List.insertionSort, migrateLoop, h11]

/-!
## AbstractRuleRange  (part_000 lines 159-355)

State: `rowIndex` (entity id to row position, seeded from `constantHeaders`),
`rules` (rule name to sparse array of raw rows, `"none"` first, holding
`[[]]` initially), and the `length` counter behind `++this.length`.
`columnOrders` is omitted: the source only ever writes it (lines 311-312) and
never reads it, so it is unobservable.  All object-key iterations the methods
perform are either re-sorted by value (`getValues`, `getRule`) or
order-insensitive (the pruning loop), so association-list order faithfully
stands in for JS key-enumeration order.
-/

/-- One sparse JS array of rows: position `i` holds `none` for a hole. -/
abbrev SparseGrid := List (Option Row)

/-- `arr[i]` on a sparse array: a hole or an out-of-bounds read is `undefined`. -/
def sget (a : SparseGrid) (i : Nat) : Option Row := a.getD i none

/-- `arr[i] = r` on a sparse array: assigning past the end pads with holes. -/
def sset (a : SparseGrid) (i : Nat) (r : Row) : SparseGrid :=
  (a ++ List.replicate (i + 1 - a.length) none).set i (some r)

/-- An entry of `client.ruleStore`: declared granularity (an opaque token,
modeled as a string) and helper text. -/
structure RuleStoreEntry where
  granularity : String
  helper : String
deriving DecidableEq

/-- The slice of the client that `AbstractRuleRange.getValues` reads. -/
structure Client where
  ruleStore : List (String × RuleStoreEntry)
deriving DecidableEq

/-- One record of the authoritative entity source (`getRows`). -/
structure RecordInfo where
  id : String
  displayName : String
deriving DecidableEq

structure RuleRange where
  rowIndex : List (String × Nat)
  rules : List (String × SparseGrid)
  length : Nat
deriving DecidableEq

/-- The constructor's seeding loop `rowIndex[constantHeaders[i]] = i`, then
`length = Object.keys(rowIndex).length`; `rules` starts as `{'none': [[]]}`. -/
def RuleRange.initial (constantHeaders : List String) : RuleRange :=
  let idx := constantHeaders.enum.foldl (fun acc p => aset acc p.2 p.1) []
  { rowIndex := idx, rules := [("none", [some []])], length := idx.length }

/-- `setRow(category, id, column)` (lines 179-188): no-op on the empty id; a
fresh id is assigned row position `++this.length` (pre-increment: the counter
is bumped first and the bumped value is the position); the category's sparse
array gets `column` at the id's position. -/
def RuleRange.setRow (s : RuleRange) (category id : String) (column : Row) : RuleRange :=
  if id = "" then s
  else
    let s1 :=
      match alookup s.rowIndex id with
      | some _ => s
      | none =>
        { s with
          rowIndex := s.rowIndex ++ [(id, s.length + 1)]
          length := s.length + 1 }
    let idx := (alookup s1.rowIndex id).getD 0
    let arr := (alookup s1.rules category).getD []
    { s1 with rules := aset s1.rules category (sset arr idx column) }

/-- The column scan of `setRules` (lines 273-284): walking the header cells
with the current column and block start; every non-empty cell closes the block
before it and opens a new one; a final block is closed at the end when
`start != col`. -/
def thresholdsGo : Row → Nat → Nat → List (Nat × Nat)
  | [], col, start => if start ≠ col then [(start, col)] else []
  | c :: rest, col, start =>
    if c ≠ "" then (start, col) :: thresholdsGo rest (col + 1) col
    else thresholdsGo rest (col + 1) start

def thresholdsOf (hdr : Row) : List (Nat × Nat) := thresholdsGo hdr 0 0

/-- `setRules(range)` (lines 272-292): split the header row into blocks, then
for every row and block call `setRow(header[start] || 'none', row[0],
row.slice(start, end))`. -/
def RuleRange.setRules (s : RuleRange) (range : Grid) : RuleRange :=
  let hdr := range.headD []
  let ts := thresholdsOf hdr
  range.foldl (fun acc row =>
    ts.foldl (fun acc2 t =>
      acc2.setRow (if hdr.getD t.1 "" ≠ "" then hdr.getD t.1 "" else "none")
        (row.headD "") ((row.drop t.1).take (t.2 - t.1))) acc) s

/-- `new ConcreteRuleRange(range, client)` with the default constant headers. -/
def mkRuleRange (range : Grid) : RuleRange :=
  (RuleRange.initial ["ID", "default"]).setRules range

/-- `getRule(ruleName)` (lines 250-261). -/
def RuleRange.getRule (s : RuleRange) (ruleName : String) : Grid :=
  match alookup s.rules ruleName with
  | none => []
  | some arr =>
    if arr.length = 0 then []
    else
      let noneArr := (alookup s.rules "none").getD []
      (List.insertionSort (fun a b => a ≤ b)
        ((s.rowIndex.map (fun p => p.2)).filter
          (fun i => (sget noneArr i).isSome && (sget arr i).isSome))).map
        (fun i => ((sget noneArr i).getD []).headD "" :: (sget arr i).getD [])

/-- `setRule(ruleName, ruleValues)` (lines 266-270). -/
def RuleRange.setRule (s : RuleRange) (ruleName : String) (ruleValues : Grid) : RuleRange :=
  ruleValues.foldl (fun acc row => acc.setRow ruleName (row.headD "") (row.drop 1)) s

/-- The header de-duplication loop at the end of `getValues` (lines 242-244):
for `c` from `length - 1` down to `1`, blank the cell equal to its left
neighbor.  The loop reads position `c - 1` before ever writing it, so the
result is pointwise on the original row. -/
def dedupHeader : Row → Row
  | [] => []
  | x :: xs => x :: List.zipWith (fun a b => if a = b then "" else b) (x :: xs) xs

/-- `ruleStore[name].helper`, or `""` when the rule is unknown (the code
guards the lookup with a truthiness check). -/
def helperOf (client : Client) (name : String) : String :=
  match alookup client.ruleStore name with
  | some e => e.helper
  | none => ""

/-- Accumulator of the `getValues` fold: the two header rows, the data rows
(in sorted-ordinal order, offset 2 in the final grid), and the rebuilt
`newRowIndex`. -/
structure GVAcc where
  row0 : Row
  row1 : Row
  data : List Row
  newIndex : List (String × Nat)
deriving DecidableEq

/-- One step of the `getValues` reduce (lines 194-240), for one
`(category, rangeRaw)` entry of `rules`: skip rule blocks whose granularity
does not match the filter, skip blocks with zero columns, otherwise append the
category header run, the helper row cells, and every tracked entity's stored
row (or a blank run) in ascending row-position order, rebuilding `newRowIndex`
as ordinal + 2. -/
def getValuesStep (client : Client) (granularityFilter : Option String)
    (sorted : List (String × Nat)) (acc : GVAcc) (cat : String × SparseGrid) : GVAcc :=
  let skip : Bool :=
    match granularityFilter with
    | none => false
    | some g => cat.1 != "none" &&
        ((alookup client.ruleStore cat.1).map (fun e => e.granularity) != some g)
  let range := (cat.2.filterMap id).filter (fun r => !r.isEmpty)
  let count := (range.headD []).length
  if skip || count == 0 then acc
  else
    let offset := acc.row0.length
    let row0 := acc.row0 ++ List.replicate count (if cat.1 = "none" then "" else cat.1)
    let row1 :=
      if cat.1 = "none" then ["", ""]
      else acc.row1 ++ (List.range count).map (fun idx =>
        if idx = 0 ∧ (alookup client.ruleStore (row0.getD (idx + offset) "")).isSome then
          helperOf client (row0.getD (idx + offset) "")
        else "")
    let emitted := sorted.map (fun e => (sget cat.2 e.2).getD (List.replicate count ""))
    let data := List.zipWith (fun a b => a ++ b)
      (acc.data ++ List.replicate (sorted.length - acc.data.length) ([] : Row)) emitted
    let newIndex := sorted.enum.foldl (fun ni p => aset ni p.2.1 (p.1 + 2)) acc.newIndex
    { row0 := row0, row1 := row1, data := data, newIndex := newIndex }

/-- `getValues(ruleGranularity?)` (lines 190-248): returns the grid and the
state carrying the committed `newRowIndex`. -/
def RuleRange.getValuesFull (s : RuleRange) (client : Client)
    (granularityFilter : Option String) : Grid × RuleRange :=
  let sorted := List.insertionSort (fun a b => a.2 ≤ b.2) s.rowIndex
  let acc := s.rules.foldl (getValuesStep client granularityFilter sorted)
    { row0 := [], row1 := [], data := [], newIndex := s.rowIndex }
  (dedupHeader acc.row0 :: acc.row1 :: acc.data, { s with rowIndex := acc.newIndex })

/-- The grid returned by a plain `getValues()` call. -/
def RuleRange.getValuesGrid (s : RuleRange) (client : Client) : Grid :=
  (s.getValuesFull client none).1

/-!
## fillRuleValues  (part_000 lines 294-344)
-/

/-- The slice of a `RuleDefinition` that `fillRuleValues` reads: name, ordered
parameter declarations, optional defaults map, granularity.  A missing
`defaults` is the `Missing default values` error. -/
structure RuleDefn where
  name : String
  params : List (String × ParamDefinition)
  defaults : Option (List (String × String))
  granularity : String
deriving DecidableEq

/-- `makeCampaignIndexedSettings(headers, currentSettings)` (lines 139-151):
`result[row[0]][headers[c-1]] = row[c]` for every row and `c >= 1`. -/
def makeCampaignIndexedSettings (headers : Row) (currentSettings : Grid) :
    List (String × List (String × String)) :=
  currentSettings.foldl (fun res row =>
    (List.range row.length).foldl (fun r c =>
      if c = 0 then r
      else
        let inner := (alookup r (row.headD "")).getD []
        aset r (row.headD "") (aset inner (headers.getD (c - 1) "") (row.getD c ""))) res) []

/-- `paramsByHeader[label]`: the parameter key whose declared label is
`label`; the JS loop assigns in declaration order, so on duplicate labels the
last declaration wins, hence the reverse search.  A label declared by no
parameter (impossible for labels taken from the declarations) yields `""`. -/
def paramForLabel (params : List (String × ParamDefinition)) (label : String) : String :=
  (((params.reverse).find? (fun p => p.2.label == label)).map (fun p => p.1)).getD ""

/-- The `"default"` row written for the rule's own block:
`currentSettings.default[label] ?? rule.defaults[paramsByHeader[label]]` per
declared parameter, falling back to the compiled-in default only when no
stored default row exists or it lacks the label. -/
def fillDefaultRow (currentSettings : List (String × List (String × String)))
    (headersByIndex : List String) (params : List (String × ParamDefinition))
    (defaults : List (String × String)) (count : Nat) : Row :=
  (List.range count).map (fun index =>
    let label := headersByIndex.getD index ""
    match alookup currentSettings "default" with
    | some drec => (alookup drec label).getD
        ((alookup defaults (paramForLabel params label)).getD "")
    | none => (alookup defaults (paramForLabel params label)).getD "")

/-- An authoritative entity's row for the rule's own block:
`currentSettings[id][label] ?? ''` per declared parameter — the stored value
or blank, never the compiled-in defaults. -/
def fillEntityRow (currentSettings : List (String × List (String × String)))
    (headersByIndex : List String) (count : Nat) (recId : String) : Row :=
  (List.range count).map (fun index =>
    match alookup currentSettings recId with
    | some rrec => (alookup rrec (headersByIndex.getD index "")).getD ""
    | none => "")

/-- The per-record body of the `for (const record of await getRows(...))` loop:
write the entity's parameter row and its `[id, displayName]` identity row. -/
def fillRecordsStep (ruleName : String)
    (currentSettings : List (String × List (String × String)))
    (headersByIndex : List String) (count : Nat)
    (st : RuleRange) (rec : RecordInfo) : RuleRange :=
  (st.setRow ruleName rec.id
    (fillEntityRow currentSettings headersByIndex count rec.id)).setRow
    "none" rec.id [rec.id, rec.displayName]

/-- The state reached by `fillRuleValues` just before the pruning loop: the
sentinel rows, the default row, and one pass over the authoritative records. -/
def fillRuleStates (s : RuleRange) (rule : RuleDefn)
    (defaults : List (String × String)) (records : List RecordInfo) : RuleRange :=
  let headersByIndex : List String := rule.params.map (fun p => p.2.label)
  let ruleValues := s.getRule rule.name
  let currentSettings := makeCampaignIndexedSettings
    ((ruleValues.headD []).drop 1) ruleValues
  let count := rule.params.length
  let s1 := s.setRow "none" "ID" ["ID", rule.granularity ++ " Name"]
  let s2 := s1.setRow rule.name "ID" headersByIndex
  let s3 := s2.setRow "none" "default" ["default", ""]
  let s4 := s3.setRow rule.name "default"
    (fillDefaultRow currentSettings headersByIndex rule.params defaults count)
  records.foldl (fillRecordsStep rule.name currentSettings headersByIndex count) s4

/-- `fillRuleValues(rule)` (lines 294-344) with the records returned by
`await getRows(rule.granularity)` passed explicitly: error on a missing
defaults map, otherwise run the writes and prune every `rowIndex` key not in
`inSystem = {'ID', 'default'} ∪ record ids`.  Where the JS chain
`currentSettings[id][label] ?? defaults[key]` can produce `undefined` (a
defaults map missing a declared key), the model normalizes to `""`; the claims
never exercise that corner. -/
def RuleRange.fillRuleValues (s : RuleRange) (rule : RuleDefn)
    (records : List RecordInfo) : Except String RuleRange :=
  match rule.defaults with
  | none => .error "Missing default values definition in fillRow"
  | some defaults =>
    let s5 := fillRuleStates s rule defaults records
    let inSystem := "ID" :: "default" :: records.map (fun r => r.id)
    .ok { s5 with rowIndex := s5.rowIndex.filter (fun p => inSystem.contains p.1) }

/-!
## Theorems for claims C6, C5
-/

/-- Pointwise presentation of the de-duplication: each cell compared against
the cell before it, with `prev` the running left neighbor. -/
def dedupFrom (prev : String) : Row → Row
  | [] => []
  | b :: l => (if prev = b then "" else b) :: dedupFrom b l

theorem zipWith_dedup_eq_dedupFrom (x : String) (xs : Row) :
    List.zipWith (fun a b => if a = b then "" else b) (x :: xs) xs = dedupFrom x xs := by
  induction xs generalizing x with
  | nil => rfl
  | cons y ys ih => simp [List.zipWith, dedupFrom, ih y]

theorem dedupHeader_cons (x : String) (xs : Row) :
    dedupHeader (x :: xs) = x :: dedupFrom x xs := by
  simp [dedupHeader, zipWith_dedup_eq_dedupFrom]

theorem dedupFrom_getD (l : Row) (prev : String) (c : Nat) (hc : c < l.length) :
    (dedupFrom prev l).getD c "" =
      if (prev :: l).getD c "" = l.getD c "" then "" else l.getD c "" := by
  induction l generalizing prev c with
  | nil => cases hc
  | cons b t ih =>
    cases c with
    | zero => simp [dedupFrom, List.getD]
    | succ c' =>
      have hc' : c' < t.length := by simpa using hc
      simpa [dedupFrom, List.getD] using ih b c' hc'

theorem dedupFrom_length (l : Row) (prev : String) :
    (dedupFrom prev l).length = l.length := by
  induction l generalizing prev with
  | nil => rfl
  | cons b t ih => simp [dedupFrom, ih b]

/-- C6: in the grid returned by `getValues`, row 0 is exactly the
de-duplication of the raw rule-name header run: same length, and a cell is
blanked exactly when it has a left neighbor equal to it in the original row
(the right-to-left loop reads each left neighbor before writing it); in
particular `["A","A","B","B","B"]` collapses to `["A","","B","",""]`. -/
theorem getValues_header_dedup :
    (∀ (s : RuleRange) (client : Client) (g : Option String),
      (s.getValuesFull client g).1.headD [] =
        dedupHeader ((s.rules.foldl (getValuesStep client g
            (List.insertionSort (fun a b => a.2 ≤ b.2) s.rowIndex))
          { row0 := [], row1 := [], data := [], newIndex := s.rowIndex }).row0))
    ∧ (∀ (h : Row) (c : Nat), c < h.length →
        (dedupHeader h).getD c "" =
          if 0 < c ∧ h.getD (c - 1) "" = h.getD c "" then "" else h.getD c "")
    ∧ (∀ h : Row, (dedupHeader h).length = h.length)
    ∧ dedupHeader ["A", "A", "B", "B", "B"] = ["A", "", "B", "", ""] := by
  refine ⟨fun s client g => rfl, ?_, ?_, by decide⟩
  · intro h c hc
    cases h with
    | nil => cases hc
    | cons x xs =>
      rw [dedupHeader_cons]
      cases c with
      | zero => simp [List.getD]
      | succ c' =>
        have hc' : c' < xs.length := by simpa using hc
        rw [List.getD_cons_succ, dedupFrom_getD xs x c' hc']
        simp [Nat.succ_sub_one, List.getD_cons_succ, Nat.succ_pos]
  · intro h
    match h with
    | [] => rfl
    | x :: xs => simp [dedupHeader_cons, dedupFrom_length]

theorem getValues_header_dedup_witness :
    (1 : Nat) < (["A", "A"] : Row).length ∧
    (dedupHeader ["A", "A"]).getD 1 "" = "" :=
  ⟨by decide, by
    have := getValues_header_dedup.2.1 ["A", "A"] 1 (by decide)
    rw [this]
    decide⟩

/-- Specification-side `getRule`: the empty list when the rule has no stored
rows; otherwise, for exactly the tracked row positions that carry a row in
both the rule's block and the `"none"` identity block, the identity cell
prepended to the rule's stored row, in ascending row-position order (here:
sort the positions first, then restrict). -/
def specGetRule (s : RuleRange) (ruleName : String) : Grid :=
  match alookup s.rules ruleName with
  | none => []
  | some arr =>
    if arr.length = 0 then []
    else
      let noneArr := (alookup s.rules "none").getD []
      ((List.insertionSort (fun a b => a ≤ b) (s.rowIndex.map (fun p => p.2))).filter
        (fun i => (sget noneArr i).isSome && (sget arr i).isSome)).map
        (fun i => ((sget noneArr i).getD []).headD "" :: (sget arr i).getD [])

theorem insertionSort_filter_comm (p : Nat → Bool) (l : List Nat) :
    List.insertionSort (fun a b => a ≤ b) (l.filter p) =
      (List.insertionSort (fun a b => a ≤ b) l).filter p := by
  apply List.eq_of_perm_of_sorted (r := fun a b : Nat => a ≤ b)
  · have h1 : (List.insertionSort (fun a b => a ≤ b) (l.filter p)).Perm (l.filter p) :=
      List.perm_insertionSort _ _
    have h2 : (l.filter p).Perm ((List.insertionSort (fun a b => a ≤ b) l).filter p) :=
      (List.Perm.filter p (List.perm_insertionSort _ l)).symm
    exact h1.trans h2
  · exact List.sorted_insertionSort _ _
  · exact List.Pairwise.filter p (List.sorted_insertionSort _ l)

/-- C5: `getRule(ruleName)` returns exactly the rows at tracked positions
present in both the rule's block and the `"none"` identity block, each one the
identity cell prepended to the rule's stored row, ordered by ascending row
position, and the empty list when the rule has no stored rows; in particular
the stated scenario grid yields
`[["ID","label1","label2"],["default","","d2"],["1","v1",""]]`. -/
theorem getRule_spec :
    (∀ (s : RuleRange) (ruleName : String), s.getRule ruleName = specGetRule s ruleName)
    ∧ (mkRuleRange [["", "A", ""], ["ID", "label1", "label2"],
        ["default", "", "d2"], ["1", "v1", ""]]).getRule "A" =
      [["ID", "label1", "label2"], ["default", "", "d2"], ["1", "v1", ""]] := by
  constructor
  · intro s ruleName
    unfold RuleRange.getRule specGetRule
    cases alookup s.rules ruleName with
    | none => rfl
    | some arr =>
      by_cases hlen : arr.length = 0
      · simp [hlen]
      · simp only [hlen, if_false]
        rw [insertionSort_filter_comm]
  · decide

/-!
## Theorems for claims C4, C3
-/

theorem alookup_append_left {α : Type} (l l2 : List (String × α)) (k : String) (p : α)
    (h : alookup l k = some p) : alookup (l ++ l2) k = some p := by
  unfold alookup at h ⊢
  rw [List.find?_append]
  cases hf : l.find? (fun q => q.1 == k) with
  | none => rw [hf] at h; cases h
  | some q => rw [hf] at h; simpa using h

theorem alookup_append_right {α : Type} (l : List (String × α)) (k : String) (v : α)
    (h : alookup l k = none) : alookup (l ++ [(k, v)]) k = some v := by
  unfold alookup at h ⊢
  rw [List.find?_append]
  cases hf : l.find? (fun q => q.1 == k) with
  | none => simp [List.find?]
  | some q => rw [hf] at h; cases h

theorem setRow_rowIndex_preserve (s : RuleRange) (cat id : String) (col : Row)
    (id' : String) (p : Nat) (h : alookup s.rowIndex id' = some p) :
    alookup (s.setRow cat id col).rowIndex id' = some p := by
  unfold RuleRange.setRow
  by_cases hid : id = ""
  · simpa [hid]
  · simp only [hid, if_false]
    cases hfind : alookup s.rowIndex id with
    | some q => simpa using h
    | none => simpa using alookup_append_left _ _ _ _ h

theorem setRow_rowIndex_fresh (s : RuleRange) (cat id : String) (col : Row)
    (hid : id ≠ "") (h : alookup s.rowIndex id = none) :
    alookup (s.setRow cat id col).rowIndex id = some (s.length + 1) := by
  unfold RuleRange.setRow
  simp only [hid, if_false]
  cases hfind : alookup s.rowIndex id with
  | some q => rw [hfind] at h; cases h
  | none => simpa using alookup_append_right _ _ _ h

theorem setRow_rowIndex_isSome (s : RuleRange) (cat id : String) (col : Row)
    (hid : id ≠ "") : (alookup (s.setRow cat id col).rowIndex id).isSome := by
  cases hfind : alookup s.rowIndex id with
  | some q => rw [setRow_rowIndex_preserve s cat id col id q hfind]; rfl
  | none => rw [setRow_rowIndex_fresh s cat id col hid hfind]; rfl

theorem setRow_rowIndex_isSome_preserve (s : RuleRange) (cat id : String) (col : Row)
    (id' : String) (h : (alookup s.rowIndex id').isSome) :
    (alookup (s.setRow cat id col).rowIndex id').isSome := by
  cases hfind : alookup s.rowIndex id' with
  | some q => rw [setRow_rowIndex_preserve s cat id col id' q hfind]; rfl
  | none => rw [hfind] at h; cases h

theorem alookup_filter_key {α : Type} (l : List (String × α)) (f : String × α → Bool)
    (k : String) (hf : ∀ v, f (k, v) = true) : alookup (l.filter f) k = alookup l k := by
  induction l with
  | nil => rfl
  | cons q t ih =>
    by_cases hk : q.1 = k
    · have hq : f q = true := by
        have hqe : q = (k, q.2) := by rw [← hk]
        rw [hqe]; exact hf q.2
      have hbeq : (q.1 == k) = true := by simp [hk]
      rw [List.filter_cons_of_pos hq]
      unfold alookup
      simp only [List.find?_cons, hbeq]
    · have hne : (q.1 == k) = false := beq_false_of_ne hk
      cases hq : f q with
      | true =>
        rw [List.filter_cons_of_pos hq]
        unfold alookup at ih ⊢
        simp only [List.find?_cons, hne]
        exact ih
      | false =>
        rw [List.filter_cons_of_neg (by simp [hq])]
        unfold alookup at ih ⊢
        simp only [List.find?_cons, hne]
        exact ih

theorem alookup_filter_none {α : Type} (l : List (String × α)) (f : String × α → Bool)
    (k : String) (hf : ∀ v, f (k, v) = false) : alookup (l.filter f) k = none := by
  induction l with
  | nil => rfl
  | cons q t ih =>
    by_cases hk : q.1 = k
    · have hq : f q = false := by
        have hqe : q = (k, q.2) := by rw [← hk]
        rw [hqe]; exact hf q.2
      rw [List.filter_cons_of_neg (by simp [hq])]
      exact ih
    · have hne : (q.1 == k) = false := beq_false_of_ne hk
      cases hq : f q with
      | true =>
        rw [List.filter_cons_of_pos hq]
        unfold alookup at ih ⊢
        simp only [List.find?_cons, hne]
        exact ih
      | false =>
        rw [List.filter_cons_of_neg (by simp [hq])]
        exact ih

/-- C4 counterexample: starting from the constructor state (sentinels
`ID -> 0`, `default -> 1`, counter 2), adding one fresh entity by `setRow`
assigns position `++length = 3`: position 2 is never used, so the positions
are not gap-free and the fresh entity does not receive the next unused index. -/
theorem rowIndex_dense_cex :
    ((RuleRange.initial ["ID", "default"]).setRow "none" "x" ["x", "n"]).rowIndex
      = [("ID", 0), ("default", 1), ("x", 3)] ∧
    (((RuleRange.initial ["ID", "default"]).setRow "none" "x"
        ["x", "n"]).rowIndex.map (fun p => p.2)).contains 2 = false := by
  refine ⟨by decide, by decide⟩

theorem foldRecords_preserve_pos (ruleName : String)
    (cs : List (String × List (String × String))) (hbi : List String) (count : Nat)
    (records : List RecordInfo) (st : RuleRange) (id : String) (p : Nat)
    (h : alookup st.rowIndex id = some p) :
    alookup ((records.foldl (fillRecordsStep ruleName cs hbi count) st).rowIndex) id
      = some p := by
  induction records generalizing st with
  | nil => exact h
  | cons rec rest ih =>
    apply ih
    exact setRow_rowIndex_preserve _ _ _ _ _ _
      (setRow_rowIndex_preserve _ _ _ _ _ _ h)

theorem foldRecords_preserve_isSome (ruleName : String)
    (cs : List (String × List (String × String))) (hbi : List String) (count : Nat)
    (records : List RecordInfo) (st : RuleRange) (id : String)
    (h : (alookup st.rowIndex id).isSome) :
    (alookup ((records.foldl (fillRecordsStep ruleName cs hbi count) st).rowIndex) id).isSome := by
  cases hfind : alookup st.rowIndex id with
  | none => rw [hfind] at h; cases h
  | some p =>
    rw [foldRecords_preserve_pos ruleName cs hbi count records st id p hfind]
    rfl

theorem foldRecords_mem (ruleName : String)
    (cs : List (String × List (String × String))) (hbi : List String) (count : Nat)
    (records : List RecordInfo) (st : RuleRange) (r : RecordInfo)
    (hr : r ∈ records) (hid : r.id ≠ "") :
    (alookup ((records.foldl (fillRecordsStep ruleName cs hbi count) st).rowIndex) r.id).isSome := by
  induction records generalizing st with
  | nil => cases hr
  | cons rec rest ih =>
    rcases List.mem_cons.mp hr with h | h
    · subst h
      rw [List.foldl_cons]
      apply foldRecords_preserve_isSome
      unfold fillRecordsStep
      exact setRow_rowIndex_isSome _ _ _ _ hid
    · rw [List.foldl_cons]
      exact ih _ h

/-- C3: after any successful `fillRuleValues(rule)` call that received records
with non-empty ids, the row index tracks exactly the sentinel keys `"ID"` and
`"default"` together with the ids returned by `getRows(rule.granularity)`
during that call; every previously tracked id outside that set is pruned. -/
theorem fillRuleValues_prune (s : RuleRange) (rule : RuleDefn)
    (records : List RecordInfo) (s' : RuleRange)
    (hok : s.fillRuleValues rule records = Except.ok s')
    (hids : ∀ r ∈ records, r.id ≠ "") (k : String) :
    (alookup s'.rowIndex k).isSome ↔
      (k = "ID" ∨ k = "default" ∨ k ∈ records.map (fun r => r.id)) := by
  cases hd : rule.defaults with
  | none =>
    unfold RuleRange.fillRuleValues at hok
    rw [hd] at hok
    cases hok
  | some defaults =>
    unfold RuleRange.fillRuleValues at hok
    rw [hd] at hok
    have hs' : s' = { fillRuleStates s rule defaults records with
        rowIndex := (fillRuleStates s rule defaults records).rowIndex.filter
          (fun p => (("ID" :: "default" :: records.map (fun r => r.id)) : List String).contains p.1) } := by
      cases hok
      rfl
    subst hs'
    by_cases hk : k = "ID" ∨ k = "default" ∨ k ∈ records.map (fun r => r.id)
    · simp only [hk, iff_true]
      have hcontains : (("ID" :: "default" :: records.map (fun r => r.id)) :
          List String).contains k = true := by
        rcases hk with h | h | h
        · subst h; simp
        · subst h; simp
        · simp [h]
      have hfilter := alookup_filter_key
        ((fillRuleStates s rule defaults records).rowIndex)
        (fun p => (("ID" :: "default" :: records.map (fun r => r.id)) :
          List String).contains p.1) k (fun v => hcontains)
      simp only [hfilter]
      rcases hk with h | h | h
      · subst h
        unfold fillRuleStates
        apply foldRecords_preserve_isSome
        apply setRow_rowIndex_isSome_preserve
        apply setRow_rowIndex_isSome_preserve
        apply setRow_rowIndex_isSome_preserve
        exact setRow_rowIndex_isSome _ _ _ _ (by decide)
      · subst h
        unfold fillRuleStates
        apply foldRecords_preserve_isSome
        apply setRow_rowIndex_isSome_preserve
        exact setRow_rowIndex_isSome _ _ _ _ (by decide)
      · rcases List.mem_map.mp h with ⟨r, hrmem, hrid⟩
        subst hrid
        unfold fillRuleStates
        exact foldRecords_mem _ _ _ _ records _ r hrmem (hids r hrmem)
    · simp only [hk, iff_false]
      have hcontains : ∀ v : Nat, ((fun p : String × Nat =>
          (("ID" :: "default" :: records.map (fun r => r.id)) :
            List String).contains p.1) (k, v)) = false := by
        intro v
        simp only [List.contains_cons]
        push_neg at hk
        simp [hk.1, hk.2.1]
        intro x hx
        intro hcontra
        exact absurd (hcontra ▸ (List.mem_map.mpr ⟨x, hx, rfl⟩) : k ∈ records.map (fun r => r.id)) hk.2.2
      rw [alookup_filter_none _ _ _ hcontains]
      simp

def c3s : RuleRange :=
  mkRuleRange [["", "A"], ["ID", "label1"], ["default", "d"], ["stale", "v"]]

def c3rule : RuleDefn := ⟨"A", [("p1", ⟨"label1"⟩)], some [("p1", "d")], "camp"⟩

def c3recs : List RecordInfo := [⟨"1", "one"⟩]

def c3out : RuleRange := (c3s.fillRuleValues c3rule c3recs).toOption.getD c3s

theorem fillRuleValues_prune_witness :
    ((alookup c3out.rowIndex "stale").isSome ↔
      ("stale" = "ID" ∨ "stale" = "default" ∨ "stale" ∈ c3recs.map (fun r => r.id))) ∧
    (alookup c3out.rowIndex "stale").isSome = false := by
  constructor
  · exact fillRuleValues_prune c3s c3rule c3recs c3out (by rfl) (by decide) "stale"
  · decide

/-- C4 (amended): row positions are stable but neither dense nor
next-unused-assigned.  `setRow` never changes an existing entity's position; a
fresh non-empty id receives position `length + 1` — one past the running
counter, which leaves index 2 permanently unassigned after the default
two-sentinel construction, rather than the next unused index; and a
`fillRuleValues` reconciliation pass preserves the position of every already
tracked entity that survives its prune (the sentinels and the authoritative
record ids). -/
theorem rowIndex_positions (s : RuleRange) (cat id : String) (col : Row)
    (rule : RuleDefn) (records : List RecordInfo) (s' : RuleRange) :
    (∀ id' p, alookup s.rowIndex id' = some p →
      alookup (s.setRow cat id col).rowIndex id' = some p)
    ∧ (id ≠ "" → alookup s.rowIndex id = none →
        alookup (s.setRow cat id col).rowIndex id = some (s.length + 1))
    ∧ (s.fillRuleValues rule records = Except.ok s' →
        ∀ id' p, alookup s.rowIndex id' = some p →
          (id' = "ID" ∨ id' = "default" ∨ id' ∈ records.map (fun r => r.id)) →
          alookup s'.rowIndex id' = some p) := by
  refine ⟨fun id' p h => setRow_rowIndex_preserve s cat id col id' p h,
    fun hid h => setRow_rowIndex_fresh s cat id col hid h, ?_⟩
  intro hok id' p hp hmem
  cases hd : rule.defaults with
  | none =>
    unfold RuleRange.fillRuleValues at hok
    rw [hd] at hok
    cases hok
  | some defaults =>
    unfold RuleRange.fillRuleValues at hok
    rw [hd] at hok
    have hs' : s' = { fillRuleStates s rule defaults records with
        rowIndex := (fillRuleStates s rule defaults records).rowIndex.filter
          (fun q => (("ID" :: "default" :: records.map (fun r => r.id)) :
            List String).contains q.1) } := by
      cases hok
      rfl
    subst hs'
    have hcontains : (("ID" :: "default" :: records.map (fun r => r.id)) :
        List String).contains id' = true := by
      rcases hmem with h | h | h
      · subst h; simp
      · subst h; simp
      · simp [h]
    have hfilter := alookup_filter_key
      ((fillRuleStates s rule defaults records).rowIndex)
      (fun q => (("ID" :: "default" :: records.map (fun r => r.id)) :
        List String).contains q.1)
      id' (fun v => hcontains)
    show alookup ((fillRuleStates s rule defaults records).rowIndex.filter
      (fun q => (("ID" :: "default" :: records.map (fun r => r.id)) :
        List String).contains q.1)) id' = some p
    rw [hfilter]
    unfold fillRuleStates
    apply foldRecords_preserve_pos
    exact setRow_rowIndex_preserve _ _ _ _ _ _ (setRow_rowIndex_preserve _ _ _ _ _ _
      (setRow_rowIndex_preserve _ _ _ _ _ _ (setRow_rowIndex_preserve _ _ _ _ _ _ hp)))

theorem rowIndex_positions_witness :
    alookup ((RuleRange.initial ["ID", "default"]).setRow "none" "x" ["x", "n"]).rowIndex "x"
      = some ((RuleRange.initial ["ID", "default"]).length + 1) ∧
    (RuleRange.initial ["ID", "default"]).length + 1 = 3 :=
  ⟨(rowIndex_positions (RuleRange.initial ["ID", "default"]) "none" "x" ["x", "n"]
      ⟨"A", [], some [], "g"⟩ [] (RuleRange.initial ["ID", "default"])).2.1
    (by decide) (by decide), by decide⟩

/-!
## Round trip (claim C1)

A grid is *stabilized* when it has the shape `getValues` emits after a
reconciliation pass: a de-duplicated header row whose first block is the
two-column identity block, the helper row, and one data row per tracked
entity, led by the sentinel `ID` and `default` rows, every data row carrying
its entity id in the first cell.  `canonicalGrid` below builds exactly these
grids; the round-trip theorem states that parsing such a grid through the
constructor (`setRules`) and emitting it again with `getValues()` reproduces
it cell for cell.
-/

/-- One entity row of a stabilized grid: id, display name, and one run of
cell values per rule block. -/
structure CanonEnt where
  id : String
  name : String
  cells : List Row
deriving DecidableEq

/-- The raw (pre-de-duplication) header row: the blank identity block followed
by each rule's name repeated over its column run. -/
def canonHeaderRaw (blocks : List (String × Nat)) : Row :=
  ["", ""] ++ blocks.flatMap (fun b => List.replicate b.2 b.1)

/-- The de-duplicated header row: each block contributes its name once
followed by blanks. -/
def canonFlatDedup (blocks : List (String × Nat)) : Row :=
  blocks.flatMap (fun b => b.1 :: List.replicate (b.2 - 1) "")

/-- The helper row: `['', '']` for the identity block, then per block the
rule's helper text in the first column only. -/
def canonRow1 (client : Client) (blocks : List (String × Nat)) : Row :=
  ["", ""] ++ blocks.flatMap (fun b => helperOf client b.1 :: List.replicate (b.2 - 1) "")

/-- A stabilized grid. -/
def canonicalGrid (client : Client) (blocks : List (String × Nat))
    (ents : List CanonEnt) : Grid :=
  dedupHeader (canonHeaderRaw blocks) :: canonRow1 client blocks ::
    ents.map (fun e => e.id :: e.name :: e.cells.flatten)

theorem dedupFrom_replicate_self (w : Nat) (v : String) (l : Row) :
    dedupFrom v (List.replicate w v ++ l) = List.replicate w "" ++ dedupFrom v l := by
  induction w with
  | zero => rfl
  | succ n ih => simp [List.replicate_succ, dedupFrom, ih]

theorem dedupFrom_replicate_chain (w : Nat) (hw : 1 ≤ w) (v prev : String)
    (hne : v ≠ prev) (l : Row) :
    dedupFrom prev (List.replicate w v ++ l) =
      (v :: List.replicate (w - 1) "") ++ dedupFrom v l := by
  match w, hw with
  | n + 1, _ =>
    rw [List.replicate_succ, List.cons_append]
    show (if prev = v then "" else v) :: dedupFrom v (List.replicate n v ++ l) = _
    rw [if_neg (Ne.symm hne), dedupFrom_replicate_self]
    simp

theorem dedupFrom_flatBlocks (blocks : List (String × Nat)) (prev : String)
    (hb : ∀ b ∈ blocks, 1 ≤ b.2) (hnp : ∀ b ∈ blocks, b.1 ≠ prev)
    (hnd : List.Pairwise (fun x y : String × Nat => x.1 ≠ y.1) blocks) :
    dedupFrom prev (blocks.flatMap (fun b => List.replicate b.2 b.1)) =
      canonFlatDedup blocks := by
  induction blocks generalizing prev with
  | nil => rfl
  | cons b bs ih =>
    rw [List.flatMap_cons, dedupFrom_replicate_chain b.2 (hb b (by simp)) b.1 prev
      (hnp b (by simp))]
    rw [ih b.1 (fun x hx => hb x (by simp [hx]))
      (fun x hx => Ne.symm ((List.pairwise_cons.mp hnd).1 x hx))
      (List.pairwise_cons.mp hnd).2]
    simp [canonFlatDedup]

theorem canonHeader_dedup (blocks : List (String × Nat))
    (hb : ∀ b ∈ blocks, b.1 ≠ "" ∧ 1 ≤ b.2)
    (hnd : List.Pairwise (fun x y : String × Nat => x.1 ≠ y.1) blocks) :
    dedupHeader (canonHeaderRaw blocks) = ["", ""] ++ canonFlatDedup blocks := by
  show dedupHeader ("" :: "" :: blocks.flatMap (fun b => List.replicate b.2 b.1)) = _
  rw [dedupHeader_cons]
  show ("" : String) :: dedupFrom "" ("" :: blocks.flatMap (fun b => List.replicate b.2 b.1)) = _
  show ("" : String) :: (if ("" : String) = "" then "" else "") ::
    dedupFrom "" (blocks.flatMap (fun b => List.replicate b.2 b.1)) = _
  rw [if_pos rfl, dedupFrom_flatBlocks blocks "" (fun x hx => (hb x hx).2)
    (fun x hx => (hb x hx).1) hnd]
  rfl

/-- The column bounds of the rule blocks, in order, starting at `start`, each
paired with the block's name. -/
def namedBlockBounds (start : Nat) : List (String × Nat) → List (String × Nat × Nat)
  | [] => []
  | b :: bs => (b.1, start, start + b.2) :: namedBlockBounds (start + b.2) bs

theorem thresholdsGo_replicate_skip (n : Nat) (l : Row) (col start : Nat) :
    thresholdsGo (List.replicate n "" ++ l) col start = thresholdsGo l (col + n) start := by
  induction n generalizing col with
  | zero => simp
  | succ m ih =>
    rw [List.replicate_succ, List.cons_append]
    show thresholdsGo (List.replicate m "" ++ l) (col + 1) start = _
    rw [ih (col + 1)]
    congr 1
    omega

theorem thresholdsGo_flat (blocks : List (String × Nat)) (col start : Nat)
    (hb : ∀ b ∈ blocks, b.1 ≠ "" ∧ 1 ≤ b.2) (hlt : start < col) :
    thresholdsGo (canonFlatDedup blocks) col start =
      (start, col) :: (namedBlockBounds col blocks).map (fun x => x.2) := by
  induction blocks generalizing col start with
  | nil =>
    show (if start ≠ col then [(start, col)] else []) = _
    rw [if_pos (by omega)]
    rfl
  | cons b bs ih =>
    show thresholdsGo (b.1 :: (List.replicate (b.2 - 1) "" ++ canonFlatDedup bs)) col start = _
    show (if b.1 ≠ "" then (start, col) :: thresholdsGo
        (List.replicate (b.2 - 1) "" ++ canonFlatDedup bs) (col + 1) col
      else thresholdsGo (List.replicate (b.2 - 1) "" ++ canonFlatDedup bs) (col + 1) start) = _
    rw [if_pos (hb b (by simp)).1, thresholdsGo_replicate_skip]
    have h2 : col + 1 + (b.2 - 1) = col + b.2 := by
      have := (hb b (by simp)).2
      omega
    rw [h2, ih (col + b.2) col (fun x hx => hb x (by simp [hx])) (by
      have := (hb b (by simp)).2
      omega)]
    rfl

theorem thresholds_canon (blocks : List (String × Nat))
    (hb : ∀ b ∈ blocks, b.1 ≠ "" ∧ 1 ≤ b.2) :
    thresholdsOf (["", ""] ++ canonFlatDedup blocks) =
      (0, 2) :: (namedBlockBounds 2 blocks).map (fun x => x.2) := by
  show thresholdsGo ("" :: "" :: canonFlatDedup blocks) 0 0 = _
  show thresholdsGo ("" :: canonFlatDedup blocks) 1 0 = _
  show thresholdsGo (canonFlatDedup blocks) 2 0 = _
  exact thresholdsGo_flat blocks 2 0 hb (by omega)

theorem alookup_cons_self {α : Type} (k : String) (v : α) (t : List (String × α)) :
    alookup ((k, v) :: t) k = some v := by
  unfold alookup
  rw [List.find?_cons_of_pos _ (by simp)]
  rfl

theorem alookup_cons_ne {α : Type} (k' k : String) (v : α) (t : List (String × α))
    (h : k' ≠ k) : alookup ((k', v) :: t) k = alookup t k := by
  unfold alookup
  rw [List.find?_cons_of_neg _ (by simp [h])]

theorem alookup_none_of {α : Type} (l : List (String × α)) (k : String)
    (h : ∀ q ∈ l, q.1 ≠ k) : alookup l k = none := by
  induction l with
  | nil => rfl
  | cons q t ih =>
    rw [show q = (q.1, q.2) from rfl, alookup_cons_ne _ _ _ _ (h q (by simp))]
    exact ih (fun x hx => h x (by simp [hx]))

theorem alookup_middle {α : Type} (pre : List (String × α)) (k : String) (v : α)
    (tail : List (String × α)) (h : ∀ q ∈ pre, q.1 ≠ k) :
    alookup (pre ++ (k, v) :: tail) k = some v := by
  induction pre with
  | nil => exact alookup_cons_self k v tail
  | cons q t ih =>
    rw [List.cons_append, show q = (q.1, q.2) from rfl,
      alookup_cons_ne _ _ _ _ (h q (by simp))]
    exact ih (fun x hx => h x (by simp [hx]))

theorem map_update_skip {α : Type} (l : List (String × α)) (k : String) (w : α)
    (h : ∀ q ∈ l, q.1 ≠ k) :
    l.map (fun p => if p.1 == k then (k, w) else p) = l := by
  induction l with
  | nil => rfl
  | cons q t ih =>
    rw [List.map_cons, if_neg (by simp [h q (by simp)]),
      ih (fun x hx => h x (by simp [hx]))]

theorem aset_middle {α : Type} (pre : List (String × α)) (k : String) (v w : α)
    (tail : List (String × α)) (hpre : ∀ q ∈ pre, q.1 ≠ k)
    (htail : ∀ q ∈ tail, q.1 ≠ k) :
    aset (pre ++ (k, v) :: tail) k w = pre ++ (k, w) :: tail := by
  unfold aset
  rw [if_pos (List.any_eq_true.mpr ⟨(k, v), by simp, by simp⟩)]
  rw [List.map_append, List.map_cons]
  rw [map_update_skip pre k w hpre, map_update_skip tail k w htail]
  rw [if_pos (by simp)]

theorem aset_append_fresh {α : Type} (l : List (String × α)) (k : String) (v : α)
    (h : ∀ q ∈ l, q.1 ≠ k) : aset l k v = l ++ [(k, v)] := by
  unfold aset
  rw [if_neg (by
    intro hc
    rcases List.any_eq_true.mp hc with ⟨q, hq, hqk⟩
    exact h q hq (by simpa using hqk))]

theorem sset_of_le (arr : SparseGrid) (k : Nat) (v : Row) (h : arr.length ≤ k) :
    sset arr k v = arr ++ List.replicate (k - arr.length) none ++ [some v] := by
  unfold sset
  have h1 : k + 1 - arr.length = (k - arr.length) + 1 := by omega
  rw [h1, List.replicate_succ']
  rw [show arr ++ (List.replicate (k - arr.length) none ++ [none]) =
    (arr ++ List.replicate (k - arr.length) none) ++ [none] by simp]
  have h2 : k = (arr ++ List.replicate (k - arr.length) none).length + 0 := by
    simp; omega
  rw [h2, List.set_append_right _ _ (by simp)]
  simp

theorem sset_of_lt (arr : SparseGrid) (k : Nat) (v : Row) (h : k < arr.length) :
    sset arr k v = arr.set k (some v) := by
  unfold sset
  have h1 : k + 1 - arr.length = 0 := by omega
  rw [h1]
  simp

theorem setRow_empty (s : RuleRange) (cat : String) (col : Row) :
    s.setRow cat "" col = s := by
  unfold RuleRange.setRow
  rw [if_pos rfl]

theorem setRow_existing (s : RuleRange) (cat id : String) (col : Row) (P : Nat)
    (hid : id ≠ "") (h : alookup s.rowIndex id = some P) :
    s.setRow cat id col =
      { s with rules := aset s.rules cat (sset ((alookup s.rules cat).getD []) P col) } := by
  unfold RuleRange.setRow
  rw [if_neg hid]
  simp only [h]
  rfl

theorem setRow_fresh_eq (s : RuleRange) (cat id : String) (col : Row)
    (hid : id ≠ "") (h : alookup s.rowIndex id = none) :
    s.setRow cat id col =
      { rowIndex := s.rowIndex ++ [(id, s.length + 1)],
        rules := aset s.rules cat (sset ((alookup s.rules cat).getD []) (s.length + 1) col),
        length := s.length + 1 } := by
  unfold RuleRange.setRow
  rw [if_neg hid]
  simp only [h]
  have hidx : alookup (s.rowIndex ++ [(id, s.length + 1)]) id = some (s.length + 1) :=
    alookup_append_right _ _ _ h
  simp only [hidx]
  rfl

theorem namedBlockBounds_getD (blocks : List (String × Nat)) (pre : Row)
    (hb : ∀ b ∈ blocks, 1 ≤ b.2) :
    ∀ x ∈ namedBlockBounds pre.length blocks,
      (pre ++ canonFlatDedup blocks).getD x.2.1 "" = x.1 := by
  induction blocks generalizing pre with
  | nil => intro x hx; cases hx
  | cons b bs ih =>
    intro x hx
    rw [show namedBlockBounds pre.length (b :: bs) =
      (b.1, pre.length, pre.length + b.2) :: namedBlockBounds (pre.length + b.2) bs from rfl]
      at hx
    rcases List.mem_cons.mp hx with h | h
    · subst h
      show (pre ++ (b.1 :: (List.replicate (b.2 - 1) "" ++ canonFlatDedup bs))).getD
        pre.length "" = b.1
      rw [List.getD_eq_getElem?_getD, List.getElem?_append_right (by omega)]
      simp
    · have hpre : (pre ++ (b.1 :: List.replicate (b.2 - 1) "")).length
          = pre.length + b.2 := by
        have := hb b (by simp)
        simp
        omega
      have hassoc : pre ++ canonFlatDedup (b :: bs)
          = (pre ++ (b.1 :: List.replicate (b.2 - 1) "")) ++ canonFlatDedup bs := by
        show pre ++ (b.1 :: (List.replicate (b.2 - 1) "" ++ canonFlatDedup bs)) = _
        simp
      rw [hassoc]
      have := ih (pre ++ (b.1 :: List.replicate (b.2 - 1) "")) (fun y hy => hb y (by simp [hy]))
      rw [hpre] at this
      exact this x h

/-- The `rules` entries created for the rule blocks, in block order. -/
def alignRules (blocks : List (String × Nat)) (arrs : List SparseGrid) :
    List (String × SparseGrid) :=
  (blocks.zip arrs).map (fun p => (p.1.1, p.2))

/-- Row-index entries for the non-sentinel entities: consecutive positions
from `start`. -/
def restIndex (start : Nat) : List CanonEnt → List (String × Nat)
  | [] => []
  | e :: es => (e.id, start) :: restIndex (start + 1) es

/-- Successive `sset` writes at consecutive positions from `k`. -/
def extendArr (arr : SparseGrid) (k : Nat) : List Row → SparseGrid
  | [] => arr
  | r :: rs => extendArr (sset arr k r) (k + 1) rs

/-- Per-entity `sset` writes across all block arrays at positions from `k`:
entry `i` of each `cl` goes to array `i`. -/
def extendArrs (arrs : List SparseGrid) (k : Nat) : List (List Row) → List SparseGrid
  | [] => arrs
  | cl :: rest => extendArrs (List.zipWith (fun arr c => sset arr k c) arrs cl) (k + 1) rest

theorem foldl_congr_mem {α β : Type} (l : List β) (f g : α → β → α) (init : α)
    (h : ∀ a, ∀ b ∈ l, f a b = g a b) : l.foldl f init = l.foldl g init := by
  induction l generalizing init with
  | nil => rfl
  | cons x xs ih =>
    rw [List.foldl_cons, List.foldl_cons, h init x (by simp)]
    exact ih _ (fun a b hb => h a b (by simp [hb]))

theorem namedBounds_zip_slices (blocks : List (String × Nat)) (cells : List Row)
    (hf : List.Forall₂ (fun (c : Row) (b : String × Nat) => c.length = b.2) cells blocks)
    (front : Row) :
    (namedBlockBounds front.length blocks).map
      (fun x => (x.1, ((front ++ cells.flatten).drop x.2.1).take (x.2.2 - x.2.1)))
    = (blocks.zip cells).map (fun bc => (bc.1.1, bc.2)) := by
  induction hf generalizing front with
  | nil => rfl
  | cons hcb htail ih =>
    rename_i c b cs bs
    show ((b.1, front.length, front.length + b.2) :: namedBlockBounds (front.length + b.2) bs).map _
      = ((b, c) :: bs.zip cs).map _
    rw [List.map_cons, List.map_cons]
    congr 1
    · show (b.1, ((front ++ (c ++ cs.flatten)).drop front.length).take
        (front.length + b.2 - front.length)) = (b.1, c)
      rw [show front ++ (c ++ cs.flatten) = front ++ c ++ cs.flatten by simp]
      rw [show front.length + b.2 - front.length = b.2 by omega]
      rw [show (front ++ c ++ cs.flatten) = front ++ (c ++ cs.flatten) by simp]
      rw [List.drop_left]
      rw [← hcb, List.take_left]
    · have := ih (front ++ c)
      rw [show (front ++ c).length = front.length + b.2 by simp [hcb]] at this
      rw [show (front ++ c) ++ (cs.flatten) = front ++ (c :: cs).flatten by simp] at this
      exact this

theorem zipFold_update (blocks : List (String × Nat)) (cells : List Row)
    (hf : List.Forall₂ (fun (c : Row) (b : String × Nat) => c.length = b.2) cells blocks)
    (pre : List (String × SparseGrid)) (arrs : List SparseGrid)
    (hlen : arrs.length = blocks.length)
    (hnd : List.Pairwise (fun x y : String × Nat => x.1 ≠ y.1) blocks)
    (hdisj : ∀ b ∈ blocks, ∀ q ∈ pre, q.1 ≠ b.1)
    (ridx : List (String × Nat)) (L : Nat) (id : String) (P : Nat)
    (hid : id ≠ "") (hfound : alookup ridx id = some P) :
    (blocks.zip cells).foldl (fun (a : RuleRange) bc => a.setRow bc.1.1 id bc.2)
      (⟨ridx, pre ++ alignRules blocks arrs, L⟩ : RuleRange)
    = (⟨ridx, pre ++ alignRules blocks
        (List.zipWith (fun arr c => sset arr P c) arrs cells), L⟩ : RuleRange) := by
  induction hf generalizing pre arrs with
  | nil =>
    cases arrs with
    | nil => rfl
    | cons a as => cases hlen
  | cons hcb htail ih =>
    rename_i c b cs bs
    cases arrs with
    | nil => cases hlen
    | cons arr arrs' =>
      rw [show (b :: bs).zip (c :: cs) = (b, c) :: bs.zip cs from rfl, List.foldl_cons]
      have hstep : (RuleRange.setRow ⟨ridx, pre ++ alignRules (b :: bs) (arr :: arrs'), L⟩
          b.1 id c) = ⟨ridx, (pre ++ [(b.1, sset arr P c)]) ++ alignRules bs arrs', L⟩ := by
        rw [setRow_existing _ _ _ _ P hid hfound]
        show (⟨ridx, aset (pre ++ (b.1, arr) :: alignRules bs arrs') b.1
          (sset ((alookup (pre ++ (b.1, arr) :: alignRules bs arrs') b.1).getD []) P c), L⟩ :
            RuleRange) = _
        rw [alookup_middle pre b.1 arr _ (fun q hq => hdisj b (by simp) q hq)]
        rw [Option.getD_some]
        rw [aset_middle pre b.1 arr (sset arr P c) _
          (fun q hq => hdisj b (by simp) q hq)
          (fun q hq => by
            rcases List.mem_map.mp hq with ⟨p, hp, rfl⟩
            have hb := (List.of_mem_zip hp).1
            exact Ne.symm ((List.pairwise_cons.mp hnd).1 p.1 hb))]
        simp
      rw [hstep]
      have ihres := ih (pre ++ [(b.1, sset arr P c)]) arrs' (by simpa using hlen)
        (List.pairwise_cons.mp hnd).2
        (fun b' hb' q hq => by
          rcases List.mem_append.mp hq with h | h
          · exact hdisj b' (by simp [hb']) q h
          · rcases List.mem_singleton.mp h with rfl
            exact (List.pairwise_cons.mp hnd).1 b' hb')
      rw [ihres]
      congr 1
      show (pre ++ [(b.1, sset arr P c)]) ++ alignRules bs
        (List.zipWith (fun arr c => sset arr P c) arrs' cs) = _
      rw [List.append_assoc]
      rfl

theorem zipFold_create (blocks : List (String × Nat)) (cells : List Row)
    (hf : List.Forall₂ (fun (c : Row) (b : String × Nat) => c.length = b.2) cells blocks)
    (pre : List (String × SparseGrid))
    (hnd : List.Pairwise (fun x y : String × Nat => x.1 ≠ y.1) blocks)
    (hdisj : ∀ b ∈ blocks, ∀ q ∈ pre, q.1 ≠ b.1)
    (ridx : List (String × Nat)) (L : Nat) (id : String) (P : Nat)
    (hid : id ≠ "") (hfound : alookup ridx id = some P) :
    (blocks.zip cells).foldl (fun (a : RuleRange) bc => a.setRow bc.1.1 id bc.2)
      (⟨ridx, pre, L⟩ : RuleRange)
    = (⟨ridx, pre ++ alignRules blocks (cells.map (fun c => sset [] P c)), L⟩ : RuleRange) := by
  induction hf generalizing pre with
  | nil => simp [alignRules]
  | cons hcb htail ih =>
    rename_i c b cs bs
    rw [show (b :: bs).zip (c :: cs) = (b, c) :: bs.zip cs from rfl, List.foldl_cons]
    have hstep : (RuleRange.setRow ⟨ridx, pre, L⟩ b.1 id c)
        = ⟨ridx, pre ++ [(b.1, sset [] P c)], L⟩ := by
      rw [setRow_existing _ _ _ _ P hid hfound]
      show (⟨ridx, aset pre b.1 (sset ((alookup pre b.1).getD []) P c), L⟩ : RuleRange) = _
      rw [alookup_none_of pre b.1 (fun q hq => hdisj b (by simp) q hq)]
      rw [Option.getD_none]
      rw [aset_append_fresh pre b.1 _ (fun q hq => hdisj b (by simp) q hq)]
    rw [hstep]
    have ihres := ih (pre ++ [(b.1, sset [] P c)])
      (List.pairwise_cons.mp hnd).2
      (fun b' hb' q hq => by
        rcases List.mem_append.mp hq with h | h
        · exact hdisj b' (by simp [hb']) q h
        · rcases List.mem_singleton.mp h with rfl
          exact (List.pairwise_cons.mp hnd).1 b' hb')
    rw [ihres]
    rw [List.append_assoc]
    rfl

theorem namedBlockBounds_names (blocks : List (String × Nat)) (start : Nat) :
    ∀ x ∈ namedBlockBounds start blocks, ∃ b ∈ blocks, x.1 = b.1 := by
  induction blocks generalizing start with
  | nil => intro x hx; cases hx
  | cons b bs ih =>
    intro x hx
    rcases List.mem_cons.mp hx with h | h
    · exact ⟨b, by simp, by rw [h]⟩
    · rcases ih (start + b.2) x h with ⟨b', hb', he⟩
      exact ⟨b', by simp [hb'], he⟩

/-- Processing one stabilized data row through the thresholds of the canonical
header is the identity write followed by one block write per rule, in block
order. -/
theorem rowFold_canonical (blocks : List (String × Nat))
    (hb : ∀ b ∈ blocks, b.1 ≠ "" ∧ b.1 ≠ "none" ∧ 1 ≤ b.2)
    (e : CanonEnt) (hf : List.Forall₂ (fun (c : Row) (b : String × Nat) => c.length = b.2)
      e.cells blocks) (acc : RuleRange) :
    (thresholdsOf (["", ""] ++ canonFlatDedup blocks)).foldl
      (fun (acc2 : RuleRange) t => acc2.setRow
        (if (["", ""] ++ canonFlatDedup blocks : Row).getD t.1 "" ≠ "" then
          (["", ""] ++ canonFlatDedup blocks : Row).getD t.1 "" else "none")
        ((e.id :: e.name :: e.cells.flatten).headD "")
        (((e.id :: e.name :: e.cells.flatten).drop t.1).take (t.2 - t.1))) acc
    = (blocks.zip e.cells).foldl (fun (a : RuleRange) bc => a.setRow bc.1.1 e.id bc.2)
        (acc.setRow "none" e.id [e.id, e.name]) := by
  rw [thresholds_canon blocks (fun b hb' => ⟨(hb b hb').1, (hb b hb').2.2⟩)]
  rw [List.foldl_cons]
  have hstep0 : (RuleRange.setRow acc
      (if (["", ""] ++ canonFlatDedup blocks : Row).getD 0 "" ≠ "" then
        (["", ""] ++ canonFlatDedup blocks : Row).getD 0 "" else "none")
      ((e.id :: e.name :: e.cells.flatten).headD "")
      (((e.id :: e.name :: e.cells.flatten).drop 0).take (2 - 0)))
      = acc.setRow "none" e.id [e.id, e.name] := by
    rfl
  rw [hstep0, List.foldl_map]
  have hcat : ∀ (a : RuleRange) (x : String × Nat × Nat), x ∈ namedBlockBounds 2 blocks →
      (RuleRange.setRow a
        (if (["", ""] ++ canonFlatDedup blocks : Row).getD x.2.1 "" ≠ "" then
          (["", ""] ++ canonFlatDedup blocks : Row).getD x.2.1 "" else "none")
        ((e.id :: e.name :: e.cells.flatten).headD "")
        (((e.id :: e.name :: e.cells.flatten).drop x.2.1).take (x.2.2 - x.2.1)))
      = RuleRange.setRow a x.1 e.id
        (((e.id :: e.name :: e.cells.flatten).drop x.2.1).take (x.2.2 - x.2.1)) := by
    intro a x hx
    have hget := namedBlockBounds_getD blocks ["", ""] (fun b hb' => (hb b hb').2.2) x hx
    rcases namedBlockBounds_names blocks 2 x hx with ⟨b, hbmem, hname⟩
    rw [hget, if_pos (by rw [hname]; exact (hb b hbmem).1)]
    rfl
  rw [foldl_congr_mem _ _ _ _ hcat]
  have hslices := namedBounds_zip_slices blocks e.cells hf [e.id, e.name]
  norm_num at hslices
  have hbody : (namedBlockBounds 2 blocks).foldl
      (fun (a : RuleRange) x => RuleRange.setRow a x.1 e.id
        (((e.id :: e.name :: e.cells.flatten).drop x.2.1).take (x.2.2 - x.2.1)))
      (acc.setRow "none" e.id [e.id, e.name])
      = ((namedBlockBounds 2 blocks).map (fun x => (x.1,
          (((e.id :: e.name :: e.cells.flatten) : Row).drop x.2.1).take (x.2.2 - x.2.1)))).foldl
        (fun (a : RuleRange) y => RuleRange.setRow a y.1 e.id y.2)
        (acc.setRow "none" e.id [e.id, e.name]) := by
    rw [List.foldl_map]
  rw [hbody]
  rw [show ((namedBlockBounds 2 blocks).map (fun x => (x.1,
      (((e.id :: e.name :: e.cells.flatten) : Row).drop x.2.1).take (x.2.2 - x.2.1))))
    = (blocks.zip e.cells).map (fun bc => (bc.1.1, bc.2)) from hslices]
  rw [List.foldl_map]

theorem alookup_append_singleton_ne {α : Type} (l : List (String × α)) (k k1 : String)
    (v : α) (h : alookup l k = none) (hne : k ≠ k1) :
    alookup (l ++ [(k1, v)]) k = none := by
  unfold alookup at h ⊢
  rw [List.find?_append]
  cases hf : l.find? (fun q => q.1 == k) with
  | some q => rw [hf] at h; cases h
  | none =>
    have hb : (k1 == k) = false := beq_eq_false_iff_ne.mpr (Ne.symm hne)
    simp [List.find?, hb]

/-- Folding the non-sentinel entity rows over a state that already holds the
two sentinel rows: each entity is appended at the next counter position and
its cells are written across the identity array and every block array. -/
theorem restFold (blocks : List (String × Nat))
    (hb : ∀ b ∈ blocks, b.1 ≠ "" ∧ b.1 ≠ "none" ∧ 1 ≤ b.2)
    (hnd : List.Pairwise (fun x y : String × Nat => x.1 ≠ y.1) blocks)
    (rest : List CanonEnt) :
    ∀ (ridx : List (String × Nat)) (L : Nat) (a : SparseGrid) (arrs : List SparseGrid),
    arrs.length = blocks.length →
    (∀ e ∈ rest, e.id ≠ "" ∧ alookup ridx e.id = none ∧
      List.Forall₂ (fun (c : Row) (b : String × Nat) => c.length = b.2) e.cells blocks) →
    (rest.map (fun e => e.id)).Nodup →
    rest.foldl (fun (acc : RuleRange) e =>
        (blocks.zip e.cells).foldl (fun (a2 : RuleRange) bc => a2.setRow bc.1.1 e.id bc.2)
          (acc.setRow "none" e.id [e.id, e.name]))
      (⟨ridx, ("none", a) :: alignRules blocks arrs, L⟩ : RuleRange)
    = (⟨ridx ++ restIndex (L + 1) rest,
        ("none", extendArr a (L + 1) (rest.map (fun e => [e.id, e.name]))) ::
          alignRules blocks (extendArrs arrs (L + 1) (rest.map (fun e => e.cells))),
        L + rest.length⟩ : RuleRange) := by
  induction rest with
  | nil =>
    intro ridx L a arrs hlen hents hnodup
    simp only [List.foldl_nil, List.map_nil]
    rw [show restIndex (L + 1) [] = [] from rfl]
    rw [show extendArr a (L + 1) [] = a from rfl]
    rw [show extendArrs arrs (L + 1) [] = arrs from rfl]
    simp
  | cons e rest' ih =>
    intro ridx L a arrs hlen hents hnodup
    rw [List.foldl_cons]
    have he := hents e (by simp)
    have hsent : (RuleRange.setRow ⟨ridx, ("none", a) :: alignRules blocks arrs, L⟩
        "none" e.id [e.id, e.name])
        = ⟨ridx ++ [(e.id, L + 1)],
            ("none", sset a (L + 1) [e.id, e.name]) :: alignRules blocks arrs, L + 1⟩ := by
      rw [setRow_fresh_eq _ _ _ _ he.1 he.2.1]
      show (⟨ridx ++ [(e.id, L + 1)],
        aset (("none", a) :: alignRules blocks arrs) "none"
          (sset ((alookup (("none", a) :: alignRules blocks arrs) "none").getD [])
            (L + 1) [e.id, e.name]), L + 1⟩ : RuleRange) = _
      rw [alookup_cons_self, Option.getD_some]
      have := aset_middle ([] : List (String × SparseGrid)) "none" a
        (sset a (L + 1) [e.id, e.name]) (alignRules blocks arrs)
        (by intro q hq; cases hq)
        (by
          intro q hq
          rcases List.mem_map.mp hq with ⟨p, hp, rfl⟩
          exact (hb p.1 (List.of_mem_zip hp).1).2.1)
      simpa using this
    rw [hsent]
    have hzip := zipFold_update blocks e.cells he.2.2
      [("none", sset a (L + 1) [e.id, e.name])] arrs hlen hnd
      (fun b hbm q hq => by
        rcases List.mem_singleton.mp hq with rfl
        exact Ne.symm (hb b hbm).2.1)
      (ridx ++ [(e.id, L + 1)]) (L + 1) e.id (L + 1) he.1
      (alookup_append_right _ _ _ he.2.1)
    rw [show ([("none", sset a (L + 1) [e.id, e.name])] ++ alignRules blocks arrs)
      = ("none", sset a (L + 1) [e.id, e.name]) :: alignRules blocks arrs from rfl] at hzip
    rw [hzip]
    have ihres := ih (ridx ++ [(e.id, L + 1)]) (L + 1)
      (sset a (L + 1) [e.id, e.name])
      (List.zipWith (fun arr c => sset arr (L + 1) c) arrs e.cells)
      (by
        rw [List.length_zipWith, hlen, List.Forall₂.length_eq he.2.2]
        simp)
      (by
        intro e' he'
        have h3 := hents e' (by simp [he'])
        refine ⟨h3.1, ?_, h3.2.2⟩
        apply alookup_append_singleton_ne _ _ _ _ h3.2.1
        have : e'.id ∈ rest'.map (fun x => x.id) := List.mem_map.mpr ⟨e', he', rfl⟩
        intro hcontra
        rw [hcontra] at this
        exact (List.nodup_cons.mp hnodup).1 this)
      (List.nodup_cons.mp hnodup).2
    simp only [List.singleton_append]
    rw [ihres]
    congr 1
    · rw [List.append_assoc]
      rfl
    · show _ = L + (rest'.length + 1)
      omega

theorem restIndex_length (rest : List CanonEnt) :
    ∀ start, (restIndex start rest).length = rest.length := by
  induction rest with
  | nil => intro start; rfl
  | cons e es ih =>
    intro start
    show (restIndex (start + 1) es).length + 1 = es.length + 1
    rw [ih (start + 1)]

theorem restIndex_pos_ge (rest : List CanonEnt) :
    ∀ start, ∀ p ∈ restIndex start rest, start ≤ p.2 := by
  induction rest with
  | nil => intro start p hp; cases hp
  | cons e es ih =>
    intro start p hp
    rcases List.mem_cons.mp hp with h | h
    · subst h; exact le_refl _
    · exact Nat.le_of_succ_le (ih (start + 1) p h)

theorem restIndex_sorted (rest : List CanonEnt) :
    ∀ start, List.Sorted (fun a b : String × Nat => a.2 ≤ b.2) (restIndex start rest) := by
  induction rest with
  | nil => intro start; exact List.sorted_nil
  | cons e es ih =>
    intro start
    show List.Sorted _ ((e.id, start) :: restIndex (start + 1) es)
    rw [List.sorted_cons]
    exact ⟨fun p hp => Nat.le_of_succ_le (restIndex_pos_ge es (start + 1) p hp), ih (start + 1)⟩

/-- The row index built by parsing a stabilized grid is already in ascending
position order, so the `Object.values(...).sort(...)` of `getValues` is the
identity on it. -/
theorem ridx_sorted_insertion (rest : List CanonEnt) :
    List.insertionSort (fun a b : String × Nat => a.2 ≤ b.2)
      ([("ID", 0), ("default", 1)] ++ restIndex 3 rest)
    = ("ID", 0) :: ("default", 1) :: restIndex 3 rest := by
  rw [show ([(("ID" : String), 0), (("default" : String), 1)] ++ restIndex 3 rest)
    = ("ID", 0) :: ("default", 1) :: restIndex 3 rest from rfl]
  apply List.Sorted.insertionSort_eq
  rw [List.sorted_cons]
  constructor
  · intro p hp
    rcases List.mem_cons.mp hp with h | h
    · subst h; exact Nat.zero_le _
    · exact Nat.zero_le _
  rw [List.sorted_cons]
  exact ⟨fun p hp => Nat.le_of_succ_le (Nat.le_of_succ_le
      (Nat.succ_le_of_lt (Nat.lt_of_lt_of_le (by omega) (restIndex_pos_ge rest 3 p hp)))),
    restIndex_sorted rest 3⟩

theorem sset_length_le (a : SparseGrid) (k : Nat) (r : Row) (h : a.length ≤ k) :
    (sset a k r).length = k + 1 := by
  rw [sset_of_le _ _ _ h]
  simp
  omega

theorem filterMap_id_replicate_none (n : Nat) :
    (List.replicate n (none : Option Row)).filterMap id = [] := by
  induction n with
  | zero => rfl
  | succ m ih => rw [List.replicate_succ]; simp [ih]

theorem filterMap_sset_le (a : SparseGrid) (k : Nat) (r : Row) (h : a.length ≤ k) :
    (sset a k r).filterMap id = a.filterMap id ++ [r] := by
  rw [sset_of_le _ _ _ h]
  rw [List.filterMap_append, List.filterMap_append, filterMap_id_replicate_none]
  simp

/-- `filterMap id` flattens an `extendArr` write run: the base array's present
rows followed by all the appended rows. -/
theorem filterMap_extendArr (rows : List Row) :
    ∀ (a : SparseGrid) (k : Nat), a.length ≤ k →
    (extendArr a k rows).filterMap id = a.filterMap id ++ rows := by
  induction rows with
  | nil => intro a k h; simp [extendArr]
  | cons r rs ih =>
    intro a k h
    show (extendArr (sset a k r) (k + 1) rs).filterMap id = _
    rw [ih (sset a k r) (k + 1) (by rw [sset_length_le _ _ _ h])]
    rw [filterMap_sset_le _ _ _ h]
    simp

theorem sget_sset_low (a : SparseGrid) (k : Nat) (r : Row) (h : a.length ≤ k)
    (i : Nat) (hi : i < a.length) : sget (sset a k r) i = sget a i := by
  rw [sset_of_le _ _ _ h]
  unfold sget
  rw [List.getD_eq_getElem?_getD, List.getD_eq_getElem?_getD]
  rw [List.getElem?_append_left (by simp; omega)]
  rw [List.getElem?_append_left (by omega)]

theorem sget_sset_self (a : SparseGrid) (k : Nat) (r : Row) (h : a.length ≤ k) :
    sget (sset a k r) k = some r := by
  rw [sset_of_le _ _ _ h]
  unfold sget
  have hlen2 : (a ++ List.replicate (k - a.length) none).length = k := by simp; omega
  rw [List.getD_eq_getElem?_getD]
  rw [List.getElem?_append_right hlen2.le]
  rw [hlen2]
  simp

/-- Reading below the base array is unaffected by an `extendArr` run written at
or past the base array's end. -/
theorem sget_extendArr_low (rows : List Row) :
    ∀ (a : SparseGrid) (k : Nat), a.length ≤ k → ∀ i, i < a.length →
    sget (extendArr a k rows) i = sget a i := by
  induction rows with
  | nil => intro a k h i hi; rfl
  | cons r rs ih =>
    intro a k h i hi
    show sget (extendArr (sset a k r) (k + 1) rs) i = _
    rw [ih (sset a k r) (k + 1) (by rw [sset_length_le _ _ _ h])
      i (by rw [sset_length_le _ _ _ h]; omega)]
    exact sget_sset_low a k r h i hi

/-- Reading the positions `k, k+1, …` of an `extendArr` run written at `k`
recovers exactly the written rows, paired through `restIndex`. -/
theorem emit_extendArr (rest : List CanonEnt) :
    ∀ (a : SparseGrid) (k : Nat), a.length ≤ k →
    ∀ (rows : List Row), rows.length = rest.length → ∀ (blank : Row),
    (restIndex k rest).map (fun p => (sget (extendArr a k rows) p.2).getD blank) = rows := by
  induction rest with
  | nil =>
    intro a k h rows hlen blank
    have hr : rows = [] := List.length_eq_zero.mp (by rw [hlen]; rfl)
    subst hr
    rfl
  | cons e rest' ih =>
    intro a k h rows hlen blank
    cases rows with
    | nil => simp at hlen
    | cons r rows' =>
      show ((e.id, k) :: restIndex (k + 1) rest').map
        (fun p => (sget (extendArr (sset a k r) (k + 1) rows') p.2).getD blank) = _
      rw [List.map_cons]
      congr 1
      · rw [sget_extendArr_low rows' (sset a k r) (k + 1)
          (by rw [sset_length_le _ _ _ h]) k (by rw [sset_length_le _ _ _ h]; omega)]
        rw [sget_sset_self a k r h]
        rfl
      · exact ih (sset a k r) (k + 1) (by rw [sset_length_le _ _ _ h]) rows'
          (by simpa using hlen) blank

/-- Peeling the first block array off a column-wise `extendArrs` run. -/
theorem extendArrs_cons (cls : List (List Row)) :
    ∀ (a : SparseGrid) (as : List SparseGrid) (k : Nat),
    (∀ cl ∈ cls, cl ≠ []) →
    extendArrs (a :: as) k cls
    = extendArr a k (cls.map (fun cl => cl.headD [])) ::
        extendArrs as k (cls.map (fun cl => cl.tail)) := by
  induction cls with
  | nil => intro a as k h; rfl
  | cons cl cls' ih =>
    intro a as k h
    cases cl with
    | nil => exact absurd rfl (h [] (by simp))
    | cons c cl' =>
      show extendArrs (List.zipWith (fun arr x => sset arr k x) (a :: as) (c :: cl'))
        (k + 1) cls' = _
      rw [show List.zipWith (fun arr x => sset arr k x) (a :: as) (c :: cl')
        = sset a k c :: List.zipWith (fun arr x => sset arr k x) as cl' from rfl]
      rw [ih (sset a k c) (List.zipWith (fun arr x => sset arr k x) as cl') (k + 1)
        (fun x hx => h x (by simp [hx]))]
      rfl

theorem map_const_replicate {α : Type} (l : List α) (b : String) :
    l.map (fun _ => b) = List.replicate l.length b := by
  induction l with
  | nil => rfl
  | cons x xs ih => simp [List.replicate_succ, ih]

theorem zipWith_append_replicate_nil (l : List Row) (n : Nat) (h : l.length = n) :
    List.zipWith (fun a b => a ++ b) (List.replicate n ([] : Row)) l = l := by
  induction l generalizing n with
  | nil => cases h; rfl
  | cons x xs ih =>
    cases n with
    | zero => simp at h
    | succ m =>
      rw [List.replicate_succ]
      show (([] : Row) ++ x) :: List.zipWith _ (List.replicate m []) xs = _
      rw [List.nil_append, ih m (by simpa using h)]

theorem zipWith_append_nils (l m : List Row) (h : ∀ x ∈ m, x = [])
    (hl : l.length ≤ m.length) : List.zipWith (fun a b => a ++ b) l m = l := by
  induction l generalizing m with
  | nil => rfl
  | cons x xs ih =>
    cases m with
    | nil => simp at hl
    | cons y ms =>
      rw [List.zipWith_cons_cons, h y (by simp), List.append_nil]
      rw [ih ms (fun z hz => h z (by simp [hz])) (by simpa using hl)]

theorem zipWith_append_assoc (a : List Row) :
    ∀ (b c : List Row),
    List.zipWith (fun x y => x ++ y) (List.zipWith (fun x y => x ++ y) a b) c
    = List.zipWith (fun x y => x ++ y) a (List.zipWith (fun x y => x ++ y) b c) := by
  induction a with
  | nil => intro b c; rfl
  | cons x xs ih =>
    intro b c
    cases b with
    | nil => rfl
    | cons y bs =>
      cases c with
      | nil => rfl
      | cons z cs => simp [ih bs cs]

theorem zipWith_map_same {α : Type} (l : List α) (f g : α → Row) :
    List.zipWith (fun a b => a ++ b) (l.map f) (l.map g)
    = l.map (fun x => f x ++ g x) := by
  induction l with
  | nil => rfl
  | cons x xs ih => simp [ih]

theorem zipWith_flatten_fuse (cls : List (List Row)) :
    List.zipWith (fun a b => a ++ b) (cls.map (fun cl => cl.headD []))
      ((cls.map (fun cl => cl.tail)).map (fun cl => cl.flatten))
    = cls.map (fun cl => cl.flatten) := by
  induction cls with
  | nil => rfl
  | cons cl cls' ih =>
    simp only [List.map_cons, List.zipWith_cons_cons, ih]
    congr 1
    cases cl <;> simp

/-- The helper-row run emitted for one rule block: the rule's helper text (or
blank) in the first column, blanks after. -/
theorem getValuesStep_row1_run (client : Client) (pre : Row) (name : String) (w : Nat)
    (hw : 1 ≤ w) :
    (List.range w).map (fun idx =>
      if idx = 0 ∧ (alookup client.ruleStore
          ((pre ++ List.replicate w name).getD (idx + pre.length) "")).isSome then
        helperOf client ((pre ++ List.replicate w name).getD (idx + pre.length) "")
      else "")
    = helperOf client name :: List.replicate (w - 1) "" := by
  obtain ⟨n, rfl⟩ : ∃ n, w = n + 1 := ⟨w - 1, by omega⟩
  have hget : (pre ++ List.replicate (n + 1) name).getD (0 + pre.length) "" = name := by
    rw [Nat.zero_add, List.getD_eq_getElem?_getD, List.getElem?_append_right (le_refl _)]
    simp [List.replicate_succ]
  rw [List.range_succ_eq_map, List.map_cons]
  congr 1
  · show (if (0 : Nat) = 0 ∧ (alookup client.ruleStore
        ((pre ++ List.replicate (n + 1) name).getD (0 + pre.length) "")).isSome then
      helperOf client ((pre ++ List.replicate (n + 1) name).getD (0 + pre.length) "")
      else "") = helperOf client name
    rw [hget]
    by_cases hs : (alookup client.ruleStore name).isSome = true
    · rw [if_pos ⟨rfl, hs⟩]
    · have hcond : ¬((0 : Nat) = 0 ∧ (alookup client.ruleStore name).isSome = true) :=
        fun hcon => hs hcon.2
      rw [if_neg hcond]
      unfold helperOf
      cases halo : alookup client.ruleStore name with
      | some e => rw [halo] at hs; simp at hs
      | none => rfl
  · rw [List.map_map]
    have hmap : ∀ i ∈ List.range n, ((fun idx =>
        if idx = 0 ∧ (alookup client.ruleStore
            ((pre ++ List.replicate (n + 1) name).getD (idx + pre.length) "")).isSome then
          helperOf client ((pre ++ List.replicate (n + 1) name).getD (idx + pre.length) "")
        else "") ∘ Nat.succ) i = (fun _ => ("" : String)) i := by
      intro i _
      show (if Nat.succ i = 0 ∧ (alookup client.ruleStore
          ((pre ++ List.replicate (n + 1) name).getD (Nat.succ i + pre.length) "")).isSome then
        helperOf client ((pre ++ List.replicate (n + 1) name).getD (Nat.succ i + pre.length) "")
        else "") = ""
      exact if_neg (fun hcon => Nat.succ_ne_zero i hcon.1)
    rw [List.map_congr_left hmap]
    rw [map_const_replicate, List.length_range]
    simp

/-- One `getValues` reduce step over a rule block of a stabilized state: the
header run, the helper run, and every entity's stored cells are appended. -/
theorem getValuesStep_block (client : Client) (rest : List CanonEnt) (acc : GVAcc)
    (name : String) (w : Nat) (hname : ¬ name = "none") (hw : 1 ≤ w)
    (c d : Row) (hc : c.length = w) (hd : d.length = w)
    (rows : List Row) (hrows : ∀ r ∈ rows, r ≠ [])
    (hlenr : rows.length = rest.length)
    (hdlen : acc.data.length = 2 + rest.length) :
    getValuesStep client none (("ID", 0) :: ("default", 1) :: restIndex 3 rest) acc
      (name, extendArr (sset (sset [] 0 c) 1 d) 3 rows)
    = { row0 := acc.row0 ++ List.replicate w name,
        row1 := acc.row1 ++ (helperOf client name :: List.replicate (w - 1) ""),
        data := List.zipWith (fun a b => a ++ b) acc.data (c :: d :: rows),
        newIndex := (("ID", 0) :: ("default", 1) :: restIndex 3 rest).enum.foldl
          (fun ni p => aset ni p.2.1 (p.1 + 2)) acc.newIndex } := by
  have hbase : sset (sset ([] : SparseGrid) 0 c) 1 d = [some c, some d] := rfl
  have hfm : (extendArr [some c, some d] 3 rows).filterMap id = c :: d :: rows := by
    rw [filterMap_extendArr rows [some c, some d] 3 (by simp)]
    rfl
  have hfilter : ((c :: d :: rows).filter (fun r => !r.isEmpty)) = c :: d :: rows := by
    apply List.filter_eq_self.mpr
    intro r hr
    have hne : r ≠ [] := by
      rcases List.mem_cons.mp hr with h | h
      · subst h; intro hc0; rw [hc0] at hc; simp at hc; omega
      rcases List.mem_cons.mp h with h2 | h2
      · subst h2; intro hd0; rw [hd0] at hd; simp at hd; omega
      · exact hrows r h2
    simp [hne]
  have hsl : (("ID", 0) :: ("default", 1) :: restIndex 3 rest).length = 2 + rest.length := by
    simp [restIndex_length]
    omega
  have hemit : (("ID", 0) :: ("default", 1) :: restIndex 3 rest).map
      (fun p => (sget (extendArr [some c, some d] 3 rows) p.2).getD (List.replicate w ""))
      = c :: d :: rows := by
    rw [List.map_cons, List.map_cons]
    simp only []
    congr 1
    · rw [sget_extendArr_low rows [some c, some d] 3 (by simp) 0 (by simp)]
      rfl
    congr 1
    · rw [sget_extendArr_low rows [some c, some d] 3 (by simp) 1 (by simp)]
      rfl
    · exact emit_extendArr rest [some c, some d] 3 (by simp) rows hlenr _
  have hw0 : (w == 0) = false := by simp; omega
  simp only [getValuesStep, hbase]
  rw [hfm, hfilter]
  simp only [List.headD_cons]
  rw [hc]
  simp only [hw0, Bool.false_or, Bool.false_eq_true, if_false, if_neg hname]
  rw [getValuesStep_row1_run client acc.row0 name w hw]
  rw [hemit]
  simp only [hsl, hdlen, Nat.sub_self, List.replicate_zero, List.append_nil]

/-- The `getValues` reduce step over the `"none"` identity block of a
stabilized state: the blank header run, the reset helper row, and every
entity's `[id, name]` pair. -/
theorem getValuesStep_none (client : Client) (rest : List CanonEnt)
    (ni : List (String × Nat)) (nID nD : String) :
    getValuesStep client none (("ID", 0) :: ("default", 1) :: restIndex 3 rest)
      ⟨[], [], [], ni⟩
      ("none", extendArr [some ["ID", nID], some ["default", nD]] 3
        (rest.map (fun e => [e.id, e.name])))
    = ⟨["", ""], ["", ""],
        ["ID", nID] :: ["default", nD] :: rest.map (fun e => [e.id, e.name]),
        (("ID", 0) :: ("default", 1) :: restIndex 3 rest).enum.foldl
          (fun ni2 p => aset ni2 p.2.1 (p.1 + 2)) ni⟩ := by
  have hfm : (extendArr [some ["ID", nID], some ["default", nD]] 3
      (rest.map (fun e => [e.id, e.name]))).filterMap id
      = ["ID", nID] :: ["default", nD] :: rest.map (fun e => [e.id, e.name]) := by
    rw [filterMap_extendArr _ [some ["ID", nID], some ["default", nD]] 3 (by simp)]
    rfl
  have hfilter : ((["ID", nID] :: ["default", nD] :: rest.map (fun e => [e.id, e.name])).filter
      (fun r => !r.isEmpty))
      = ["ID", nID] :: ["default", nD] :: rest.map (fun e => [e.id, e.name]) := by
    apply List.filter_eq_self.mpr
    intro r hr
    have hne : r ≠ [] := by
      rcases List.mem_cons.mp hr with h | h
      · subst h; simp
      rcases List.mem_cons.mp h with h2 | h2
      · subst h2; simp
      · rcases List.mem_map.mp h2 with ⟨e, _, rfl⟩; simp
    simp [hne]
  have hsl : (("ID", 0) :: ("default", 1) :: restIndex 3 rest).length = 2 + rest.length := by
    simp [restIndex_length]
    omega
  have hemit : (("ID", 0) :: ("default", 1) :: restIndex 3 rest).map
      (fun p => (sget (extendArr [some ["ID", nID], some ["default", nD]] 3
        (rest.map (fun e => [e.id, e.name]))) p.2).getD (List.replicate 2 ""))
      = ["ID", nID] :: ["default", nD] :: rest.map (fun e => [e.id, e.name]) := by
    rw [List.map_cons, List.map_cons]
    simp only []
    congr 1
    · rw [sget_extendArr_low _ [some ["ID", nID], some ["default", nD]] 3 (by simp) 0 (by simp)]
      rfl
    congr 1
    · rw [sget_extendArr_low _ [some ["ID", nID], some ["default", nD]] 3 (by simp) 1 (by simp)]
      rfl
    · exact emit_extendArr rest [some ["ID", nID], some ["default", nD]] 3 (by simp)
        (rest.map (fun e => [e.id, e.name])) (by simp) _
  simp only [getValuesStep]
  rw [hfm, hfilter]
  simp only [List.headD_cons, List.length_cons, List.length_nil, Nat.reduceAdd,
    Nat.reduceBEq, Bool.false_or, Bool.false_eq_true, if_false, if_true,
    List.nil_append, Nat.sub_zero]
  rw [hemit]
  rw [zipWith_append_replicate_nil _ _ (by simp [restIndex_length])]
  simp

/-- Folding the `getValues` reduce over all rule-block entries of a stabilized
state appends, per block, the header run, the helper run, and every entity's
stored cells; the data rows accumulate each entity's cells in block order. -/
theorem emitBlocks (client : Client) (rest : List CanonEnt) (blocks : List (String × Nat)) :
    ∀ (cID cD : List Row) (cls : List (List Row)) (acc : GVAcc),
    List.Forall₂ (fun (x : Row) (b : String × Nat) => x.length = b.2) cID blocks →
    List.Forall₂ (fun (x : Row) (b : String × Nat) => x.length = b.2) cD blocks →
    (∀ cl ∈ cls, List.Forall₂ (fun (x : Row) (b : String × Nat) => x.length = b.2) cl blocks) →
    (∀ b ∈ blocks, b.1 ≠ "" ∧ b.1 ≠ "none" ∧ 1 ≤ b.2) →
    cls.length = rest.length →
    acc.data.length = 2 + rest.length →
    ((alignRules blocks (extendArrs
        (List.zipWith (fun arr x => sset arr 1 x) (cID.map (fun x => sset [] 0 x)) cD)
        3 cls)).foldl
      (getValuesStep client none (("ID", 0) :: ("default", 1) :: restIndex 3 rest)) acc).row0
      = acc.row0 ++ blocks.flatMap (fun b => List.replicate b.2 b.1) ∧
    ((alignRules blocks (extendArrs
        (List.zipWith (fun arr x => sset arr 1 x) (cID.map (fun x => sset [] 0 x)) cD)
        3 cls)).foldl
      (getValuesStep client none (("ID", 0) :: ("default", 1) :: restIndex 3 rest)) acc).row1
      = acc.row1 ++ blocks.flatMap (fun b => helperOf client b.1 :: List.replicate (b.2 - 1) "") ∧
    ((alignRules blocks (extendArrs
        (List.zipWith (fun arr x => sset arr 1 x) (cID.map (fun x => sset [] 0 x)) cD)
        3 cls)).foldl
      (getValuesStep client none (("ID", 0) :: ("default", 1) :: restIndex 3 rest)) acc).data
      = List.zipWith (fun a b => a ++ b) acc.data
          (cID.flatten :: cD.flatten :: cls.map (fun cl => cl.flatten)) := by
  induction blocks with
  | nil =>
    intro cID cD cls acc hfID hfD hcls hb hclen hdlen
    cases hfID
    cases hfD
    have hflat : ∀ x ∈ (List.flatten ([] : List Row) :: List.flatten ([] : List Row) ::
        cls.map (fun cl => cl.flatten)), x = ([] : Row) := by
      intro x hx
      rcases List.mem_cons.mp hx with h | h
      · simpa using h
      rcases List.mem_cons.mp h with h2 | h2
      · simpa using h2
      · rcases List.mem_map.mp h2 with ⟨cl, hcl, rfl⟩
        have : cl = [] := List.forall₂_nil_right_iff.mp (hcls cl hcl)
        rw [this]
        rfl
    refine ⟨by simp [alignRules], by simp [alignRules], ?_⟩
    rw [show alignRules [] (extendArrs
        (List.zipWith (fun arr x => sset arr 1 x) (List.map (fun x => sset [] 0 x) []) [])
        3 cls) = [] from rfl]
    rw [List.foldl_nil]
    rw [zipWith_append_nils acc.data _ hflat (by simp [hdlen, hclen]; omega)]
  | cons b bs ih =>
    intro cID cD cls acc hfID hfD hcls hb hclen hdlen
    rcases List.forall₂_cons_right_iff.mp hfID with ⟨c, cID', hcb, hfID', rfl⟩
    rcases List.forall₂_cons_right_iff.mp hfD with ⟨d, cD', hdb, hfD', rfl⟩
    have hclne : ∀ cl ∈ cls, cl ≠ [] := by
      intro cl hcl hnil
      rcases List.forall₂_cons_right_iff.mp (hcls cl hcl) with ⟨x, l', _, _, hx⟩
      rw [hnil] at hx
      cases hx
    have hpeel := extendArrs_cons cls (sset (sset [] 0 c) 1 d)
      (List.zipWith (fun arr x => sset arr 1 x) (cID'.map (fun x => sset [] 0 x)) cD') 3 hclne
    rw [show List.zipWith (fun arr x => sset arr 1 x)
        ((c :: cID').map (fun x => sset [] 0 x)) (d :: cD')
      = sset (sset [] 0 c) 1 d ::
        List.zipWith (fun arr x => sset arr 1 x) (cID'.map (fun x => sset [] 0 x)) cD'
      from rfl]
    rw [hpeel]
    rw [show alignRules (b :: bs) (extendArr (sset (sset [] 0 c) 1 d) 3
        (cls.map (fun cl => cl.headD [])) ::
        extendArrs (List.zipWith (fun arr x => sset arr 1 x)
          (cID'.map (fun x => sset [] 0 x)) cD') 3 (cls.map (fun cl => cl.tail)))
      = (b.1, extendArr (sset (sset [] 0 c) 1 d) 3 (cls.map (fun cl => cl.headD []))) ::
        alignRules bs (extendArrs (List.zipWith (fun arr x => sset arr 1 x)
          (cID'.map (fun x => sset [] 0 x)) cD') 3 (cls.map (fun cl => cl.tail)))
      from rfl]
    rw [List.foldl_cons]
    have hstep := getValuesStep_block client rest acc b.1 b.2 (hb b (by simp)).2.1
      (hb b (by simp)).2.2 c d hcb hdb (cls.map (fun cl => cl.headD []))
      (by
        intro r hr
        rcases List.mem_map.mp hr with ⟨cl, hcl, rfl⟩
        rcases List.forall₂_cons_right_iff.mp (hcls cl hcl) with ⟨x, l', hx, _, rfl⟩
        show x ≠ []
        intro hxnil
        rw [hxnil] at hx
        have h1 := (hb b (by simp)).2.2
        simp at hx
        omega)
      (by simp [hclen]) hdlen
    rw [hstep]
    have hacc2 : (List.zipWith (fun a b => a ++ b) acc.data
        (c :: d :: cls.map (fun cl => cl.headD []))).length = 2 + rest.length := by
      rw [List.length_zipWith, hdlen]
      simp [hclen]
      omega
    have ihres := ih cID' cD' (cls.map (fun cl => cl.tail))
      { row0 := acc.row0 ++ List.replicate b.2 b.1,
        row1 := acc.row1 ++ (helperOf client b.1 :: List.replicate (b.2 - 1) ""),
        data := List.zipWith (fun a b => a ++ b) acc.data
          (c :: d :: cls.map (fun cl => cl.headD [])),
        newIndex := (("ID", 0) :: ("default", 1) :: restIndex 3 rest).enum.foldl
          (fun ni p => aset ni p.2.1 (p.1 + 2)) acc.newIndex }
      hfID' hfD'
      (by
        intro cl' hcl'
        rcases List.mem_map.mp hcl' with ⟨cl, hcl, rfl⟩
        rcases List.forall₂_cons_right_iff.mp (hcls cl hcl) with ⟨x, l', _, hl', rfl⟩
        exact hl')
      (fun b' hb' => hb b' (by simp [hb']))
      (by simp [hclen])
      hacc2
    refine ⟨?_, ?_, ?_⟩
    · rw [ihres.1]
      show (acc.row0 ++ List.replicate b.2 b.1) ++ bs.flatMap (fun b => List.replicate b.2 b.1) = _
      rw [List.append_assoc, List.flatMap_cons]
    · rw [ihres.2.1]
      show (acc.row1 ++ (helperOf client b.1 :: List.replicate (b.2 - 1) "")) ++
        bs.flatMap (fun b => helperOf client b.1 :: List.replicate (b.2 - 1) "") = _
      rw [List.append_assoc, List.flatMap_cons]
    · rw [ihres.2.2]
      show List.zipWith (fun a b => a ++ b)
        (List.zipWith (fun a b => a ++ b) acc.data (c :: d :: cls.map (fun cl => cl.headD [])))
        (cID'.flatten :: cD'.flatten :: (cls.map (fun cl => cl.tail)).map (fun cl => cl.flatten))
        = _
      rw [zipWith_append_assoc]
      rw [show List.zipWith (fun a b => a ++ b) (c :: d :: cls.map (fun cl => cl.headD []))
          (cID'.flatten :: cD'.flatten :: (cls.map (fun cl => cl.tail)).map
            (fun cl => cl.flatten))
        = (c ++ cID'.flatten) :: (d ++ cD'.flatten) ::
          List.zipWith (fun a b => a ++ b) (cls.map (fun cl => cl.headD []))
            ((cls.map (fun cl => cl.tail)).map (fun cl => cl.flatten)) from rfl]
      rw [zipWith_flatten_fuse]
      rw [show ((c :: cID').flatten : Row) = c ++ cID'.flatten from rfl]
      rw [show ((d :: cD').flatten : Row) = d ++ cD'.flatten from rfl]

/-- The header and helper rows of a stabilized grid are no-ops under
`setRules`: their first cell is empty, so every `setRow` ignores them. -/
theorem foldl_thresholds_noop (hdr2 : Row) (r : Row) (hr : r.headD "" = "")
    (ts : List (Nat × Nat)) :
    ∀ acc : RuleRange,
    ts.foldl (fun acc2 t => acc2.setRow
      (if hdr2.getD t.1 "" ≠ "" then hdr2.getD t.1 "" else "none")
      (r.headD "") ((r.drop t.1).take (t.2 - t.1))) acc = acc := by
  induction ts with
  | nil => intro acc; rfl
  | cons t ts' ih =>
    intro acc
    rw [List.foldl_cons]
    have h1 : RuleRange.setRow acc
        (if hdr2.getD t.1 "" ≠ "" then hdr2.getD t.1 "" else "none")
        (r.headD "") ((r.drop t.1).take (t.2 - t.1)) = acc := by
      rw [hr]
      exact setRow_empty _ _ _
    rw [h1]
    exact ih acc

/-- Parsing a stabilized grid through the constructor: the two sentinel rows
land at their seeded positions 0 and 1, every further entity is appended at
positions 3, 4, …, and the rule blocks' arrays hold exactly the grid's cells. -/
theorem parse_canonical (client : Client) (blocks : List (String × Nat))
    (hb : ∀ b ∈ blocks, b.1 ≠ "" ∧ b.1 ≠ "none" ∧ 1 ≤ b.2)
    (hnd : List.Pairwise (fun x y : String × Nat => x.1 ≠ y.1) blocks)
    (nID nD : String) (cID cD : List Row) (rest : List CanonEnt)
    (hfID : List.Forall₂ (fun (c : Row) (b : String × Nat) => c.length = b.2) cID blocks)
    (hfD : List.Forall₂ (fun (c : Row) (b : String × Nat) => c.length = b.2) cD blocks)
    (hrest : ∀ e ∈ rest, e.id ≠ "" ∧ e.id ≠ "ID" ∧ e.id ≠ "default" ∧
      List.Forall₂ (fun (c : Row) (b : String × Nat) => c.length = b.2) e.cells blocks)
    (hnodup : (rest.map (fun e => e.id)).Nodup) :
    mkRuleRange (canonicalGrid client blocks
      (⟨"ID", nID, cID⟩ :: ⟨"default", nD, cD⟩ :: rest))
    = ⟨[("ID", 0), ("default", 1)] ++ restIndex 3 rest,
        ("none", extendArr [some ["ID", nID], some ["default", nD]] 3
          (rest.map (fun e => [e.id, e.name]))) ::
          alignRules blocks (extendArrs
            (List.zipWith (fun arr c => sset arr 1 c) (cID.map (fun c => sset [] 0 c)) cD)
            3 (rest.map (fun e => e.cells))),
        2 + rest.length⟩ := by
  have hinit : RuleRange.initial ["ID", "default"]
      = ⟨[("ID", 0), ("default", 1)], [("none", [some []])], 2⟩ := rfl
  have hhdr : (canonicalGrid client blocks
      (⟨"ID", nID, cID⟩ :: ⟨"default", nD, cD⟩ :: rest)).headD []
      = ["", ""] ++ canonFlatDedup blocks :=
    canonHeader_dedup blocks (fun x hx => ⟨(hb x hx).1, (hb x hx).2.2⟩) hnd
  simp only [mkRuleRange, RuleRange.setRules]
  rw [hinit]
  simp only [hhdr]
  rw [show canonicalGrid client blocks (⟨"ID", nID, cID⟩ :: ⟨"default", nD, cD⟩ :: rest)
      = dedupHeader (canonHeaderRaw blocks) :: canonRow1 client blocks ::
        ("ID" :: nID :: cID.flatten) :: ("default" :: nD :: cD.flatten) ::
        rest.map (fun e => e.id :: e.name :: e.cells.flatten) from rfl]
  rw [List.foldl_cons]
  rw [foldl_thresholds_noop (["", ""] ++ canonFlatDedup blocks)
    (dedupHeader (canonHeaderRaw blocks)) rfl _ _]
  rw [List.foldl_cons]
  rw [foldl_thresholds_noop (["", ""] ++ canonFlatDedup blocks)
    (canonRow1 client blocks) rfl _ _]
  rw [List.foldl_cons]
  have hrow1 := rowFold_canonical blocks hb ⟨"ID", nID, cID⟩ hfID
    (⟨[("ID", 0), ("default", 1)], [("none", [some []])], 2⟩ : RuleRange)
  simp only [] at hrow1
  rw [hrow1]
  have hsID : (⟨[("ID", 0), ("default", 1)], [("none", [some []])], 2⟩ :
      RuleRange).setRow "none" "ID" ["ID", nID]
      = ⟨[("ID", 0), ("default", 1)], [("none", [some ["ID", nID]])], 2⟩ := rfl
  rw [hsID]
  have hzID := zipFold_create blocks cID hfID [("none", [some ["ID", nID]])] hnd
    (fun b hbm q hq => by
      rcases List.mem_singleton.mp hq with rfl
      exact Ne.symm (hb b hbm).2.1)
    [("ID", 0), ("default", 1)] 2 "ID" 0 (by decide) rfl
  simp only [List.singleton_append] at hzID
  rw [hzID]
  rw [List.foldl_cons]
  have hrow2 := rowFold_canonical blocks hb ⟨"default", nD, cD⟩ hfD
    (⟨[("ID", 0), ("default", 1)],
      ("none", [some ["ID", nID]]) ::
        alignRules blocks (cID.map (fun c => sset [] 0 c)), 2⟩ : RuleRange)
  simp only [] at hrow2
  rw [hrow2]
  have hss : sset [some ["ID", nID]] 1 ["default", nD]
      = [some ["ID", nID], some ["default", nD]] := rfl
  have hsD : (⟨[("ID", 0), ("default", 1)],
      ("none", [some ["ID", nID]]) ::
        alignRules blocks (cID.map (fun c => sset [] 0 c)), 2⟩ :
      RuleRange).setRow "none" "default" ["default", nD]
      = ⟨[("ID", 0), ("default", 1)],
          ("none", [some ["ID", nID], some ["default", nD]]) ::
            alignRules blocks (cID.map (fun c => sset [] 0 c)), 2⟩ := by
    rw [setRow_existing (⟨[("ID", 0), ("default", 1)],
      ("none", [some ["ID", nID]]) ::
        alignRules blocks (cID.map (fun c => sset [] 0 c)), 2⟩ : RuleRange)
      "none" "default" ["default", nD] 1 (by decide) rfl]
    show (⟨[("ID", 0), ("default", 1)],
      aset (("none", [some ["ID", nID]]) ::
        alignRules blocks (cID.map (fun c => sset [] 0 c))) "none"
        (sset ((alookup (("none", [some ["ID", nID]]) ::
          alignRules blocks (cID.map (fun c => sset [] 0 c))) "none").getD [])
          1 ["default", nD]), 2⟩ : RuleRange) = _
    rw [alookup_cons_self, Option.getD_some, hss]
    have := aset_middle ([] : List (String × SparseGrid)) "none" [some ["ID", nID]]
      [some ["ID", nID], some ["default", nD]]
      (alignRules blocks (cID.map (fun c => sset [] 0 c)))
      (by intro q hq; cases hq)
      (by
        intro q hq
        rcases List.mem_map.mp hq with ⟨p, hp, rfl⟩
        exact (hb p.1 (List.of_mem_zip hp).1).2.1)
    simpa using this
  rw [hsD]
  have hzD := zipFold_update blocks cD hfD
    [("none", [some ["ID", nID], some ["default", nD]])]
    (cID.map (fun c => sset [] 0 c))
    (by rw [List.length_map]; exact List.Forall₂.length_eq hfID)
    hnd
    (fun b hbm q hq => by
      rcases List.mem_singleton.mp hq with rfl
      exact Ne.symm (hb b hbm).2.1)
    [("ID", 0), ("default", 1)] 2 "default" 1 (by decide) rfl
  simp only [List.singleton_append] at hzD
  rw [hzD]
  rw [List.foldl_map]
  have hconv := foldl_congr_mem rest
    (fun (x : RuleRange) (y : CanonEnt) =>
      (thresholdsOf (["", ""] ++ canonFlatDedup blocks)).foldl
        (fun (acc2 : RuleRange) t => acc2.setRow
          (if (["", ""] ++ canonFlatDedup blocks : Row).getD t.1 "" ≠ "" then
            (["", ""] ++ canonFlatDedup blocks : Row).getD t.1 "" else "none")
          ((y.id :: y.name :: y.cells.flatten).headD "")
          (((y.id :: y.name :: y.cells.flatten).drop t.1).take (t.2 - t.1))) x)
    (fun (acc : RuleRange) e => (blocks.zip e.cells).foldl
      (fun (a : RuleRange) bc => a.setRow bc.1.1 e.id bc.2)
      (acc.setRow "none" e.id [e.id, e.name]))
    (⟨[("ID", 0), ("default", 1)],
      ("none", [some ["ID", nID], some ["default", nD]]) ::
        alignRules blocks (List.zipWith (fun arr c => sset arr 1 c)
          (cID.map (fun c => sset [] 0 c)) cD), 2⟩ : RuleRange)
    (fun a e he => rowFold_canonical blocks hb e (hrest e he).2.2.2 a)
  rw [hconv]
  rw [restFold blocks hb hnd rest [("ID", 0), ("default", 1)] 2
    [some ["ID", nID], some ["default", nD]]
    (List.zipWith (fun arr c => sset arr 1 c) (cID.map (fun c => sset [] 0 c)) cD)
    (by
      rw [List.length_zipWith, List.length_map, List.Forall₂.length_eq hfID,
        List.Forall₂.length_eq hfD]
      exact Nat.min_self _)
    (by
      intro e he
      refine ⟨(hrest e he).1, ?_, (hrest e he).2.2.2⟩
      apply alookup_none_of
      intro q hq
      rcases List.mem_cons.mp hq with h | h
      · rw [h]
        exact Ne.symm (hrest e he).2.1
      · rcases List.mem_singleton.mp h with rfl
        exact Ne.symm (hrest e he).2.2.1)
    hnodup]

/-- C1: Round-trip stability of the grid representation.  A grid produced by
`getValues()` once the structured state has stabilized has the shape
`canonicalGrid`: the de-duplicated header row, the helper row, then one row
per tracked entity — the `"ID"` and `"default"` sentinels first — holding the
entity's identity pair followed by one cell run per rule block.  Re-parsing
such a grid through the constructor (`setRules`) and calling `getValues()`
again yields exactly the same grid: no row, column, or cell value is lost or
changed. -/
theorem getValues_roundtrip (client : Client) (blocks : List (String × Nat))
    (hb : ∀ b ∈ blocks, b.1 ≠ "" ∧ b.1 ≠ "none" ∧ 1 ≤ b.2)
    (hnd : List.Pairwise (fun x y : String × Nat => x.1 ≠ y.1) blocks)
    (nID nD : String) (cID cD : List Row) (rest : List CanonEnt)
    (hfID : List.Forall₂ (fun (c : Row) (b : String × Nat) => c.length = b.2) cID blocks)
    (hfD : List.Forall₂ (fun (c : Row) (b : String × Nat) => c.length = b.2) cD blocks)
    (hrest : ∀ e ∈ rest, e.id ≠ "" ∧ e.id ≠ "ID" ∧ e.id ≠ "default" ∧
      List.Forall₂ (fun (c : Row) (b : String × Nat) => c.length = b.2) e.cells blocks)
    (hnodup : (rest.map (fun e => e.id)).Nodup) :
    (mkRuleRange (canonicalGrid client blocks
      (⟨"ID", nID, cID⟩ :: ⟨"default", nD, cD⟩ :: rest))).getValuesGrid client
    = canonicalGrid client blocks (⟨"ID", nID, cID⟩ :: ⟨"default", nD, cD⟩ :: rest) := by
  rw [parse_canonical client blocks hb hnd nID nD cID cD rest hfID hfD hrest hnodup]
  simp only [RuleRange.getValuesGrid, RuleRange.getValuesFull]
  rw [ridx_sorted_insertion rest]
  rw [List.foldl_cons]
  rw [getValuesStep_none client rest ([("ID", 0), ("default", 1)] ++ restIndex 3 rest) nID nD]
  obtain ⟨h0, h1, h2⟩ := emitBlocks client rest blocks cID cD (rest.map (fun e => e.cells))
    (⟨["", ""], ["", ""],
      ["ID", nID] :: ["default", nD] :: rest.map (fun e => [e.id, e.name]),
      (("ID", 0) :: ("default", 1) :: restIndex 3 rest).enum.foldl
        (fun ni2 p => aset ni2 p.2.1 (p.1 + 2))
        ([("ID", 0), ("default", 1)] ++ restIndex 3 rest)⟩ : GVAcc)
    hfID hfD
    (by
      intro cl hcl
      rcases List.mem_map.mp hcl with ⟨e, he, rfl⟩
      exact (hrest e he).2.2.2)
    hb
    (by simp)
    (by rw [show ((⟨["", ""], ["", ""],
      ["ID", nID] :: ["default", nD] :: rest.map (fun e => [e.id, e.name]),
      (("ID", 0) :: ("default", 1) :: restIndex 3 rest).enum.foldl
        (fun ni2 p => aset ni2 p.2.1 (p.1 + 2))
        ([("ID", 0), ("default", 1)] ++ restIndex 3 rest)⟩ : GVAcc)).data
      = ["ID", nID] :: ["default", nD] :: rest.map (fun e => [e.id, e.name]) from rfl,
      List.length_cons, List.length_cons, List.length_map]; omega)
  rw [h0, h1, h2]
  simp only []
  rw [show canonicalGrid client blocks (⟨"ID", nID, cID⟩ :: ⟨"default", nD, cD⟩ :: rest)
      = dedupHeader (canonHeaderRaw blocks) :: canonRow1 client blocks ::
        ("ID" :: nID :: cID.flatten) :: ("default" :: nD :: cD.flatten) ::
        rest.map (fun e => e.id :: e.name :: e.cells.flatten) from rfl]
  congr 1
  congr 1
  rw [List.map_map, List.zipWith_cons_cons, List.zipWith_cons_cons, zipWith_map_same]
  rfl

/-- Concrete round trip: one rule block `A` two columns wide, helper text
`"h"`, one non-sentinel entity. -/
theorem getValues_roundtrip_witness :
    (mkRuleRange (canonicalGrid ⟨[("A", ⟨"camp", "h"⟩)]⟩ [("A", 2)]
      (⟨"ID", "Campaign Name", [["l1", "l2"]]⟩ :: ⟨"default", "", [["d1", "d2"]]⟩ ::
        [⟨"1", "one", [["v1", "v2"]]⟩]))).getValuesGrid ⟨[("A", ⟨"camp", "h"⟩)]⟩
    = canonicalGrid ⟨[("A", ⟨"camp", "h"⟩)]⟩ [("A", 2)]
      (⟨"ID", "Campaign Name", [["l1", "l2"]]⟩ :: ⟨"default", "", [["d1", "d2"]]⟩ ::
        [⟨"1", "one", [["v1", "v2"]]⟩]) :=
  getValues_roundtrip ⟨[("A", ⟨"camp", "h"⟩)]⟩ [("A", 2)]
    (by decide) (by decide)
    "Campaign Name" "" [["l1", "l2"]] [["d1", "d2"]] [⟨"1", "one", [["v1", "v2"]]⟩]
    (List.Forall₂.cons (by decide) List.Forall₂.nil)
    (List.Forall₂.cons (by decide) List.Forall₂.nil)
    (by
      intro e he
      rcases List.mem_singleton.mp he with rfl
      exact ⟨by decide, by decide, by decide,
        List.Forall₂.cons (by decide) List.Forall₂.nil⟩)
    (by decide)

end MarginProtection

